import Mathlib

/-! Shallow embedding of `src/FractalGeometry.wasm.asc` (AssemblyScript,
compiled to WebAssembly).

Modelling conventions, fixed once for the whole file:

* `f32` values are modelled as real numbers (`ℝ`).  `Math.sqrt`, `Math.abs`
  and `Math.log` become `Real.sqrt`, `abs` and `Real.log`.  `Math.floor(x) as
  i32` becomes `Int.floor`.  Note that in Lean division by zero yields `0`
  while IEEE arithmetic yields a non-finite value; every concrete run
  evaluated below avoids division by zero, and theorems about normalization
  carry non-degeneracy hypotheses.
* `Math.random()` is modelled as an explicit stream `d : ℕ → ℝ` of draws,
  consumed in the textual order of the `irnd()` calls of the source: indices
  0–4 for the five coefficient draws (source lines 84–88), index 5 for
  `choice` (line 91), and indices `6 + 2*s`, `7 + 2*s` for the two seed draws
  of subset `s` (lines 109–110).
* A WebAssembly trap (out-of-bounds typed-array access via the checked `[]`
  operator, out-of-bounds `Array<...>` element read, or the failing non-null
  assertion `reuse[s] as Float32Array` on a `null` entry) is modelled as
  `Option.none` propagating out of the call.
* AssemblyScript typing matters in one place: in
  `x = s / 100 * (0.5 - irnd()) as f32;` (line 109) the counter `s` is
  declared `s: i32`, so `s / 100` is the *integer* division `i32.div_s`
  (the integer literal `100` adapts to `i32`); only afterwards is the i32
  quotient implicitly widened to `f64` for the multiplication (which is why
  the source needs the trailing explicit `as f32` cast).  The embedding
  `seedX` keeps this integer division.
* The pool `Array<Float32Array | null>` is a `List (Option (List ℝ))`; the
  module-level mutable `lastData` is threaded as an explicit
  `Option Pool` state (initially `none`, matching the `null` default of the
  uninitialised `var lastData`), and the global `levelSettings`
  `Float32Array(17)` is passed as a function `ls : ℕ → ℝ`.
* The `levelId` argument is accepted (as in the source) and ignored by the
  computation, exactly as in the source.
-/

abbrev Buf := List ℝ

abbrev Pool := List (Option Buf)

/-- Checked typed-array store `b[i] = v`: AssemblyScript `Float32Array`
accesses are bounds-checked and trap when out of range. -/
def tset (b : Buf) (i : ℕ) (v : ℝ) : Option Buf :=
  if i < b.length then some (b.set i v) else none

/-- Checked typed-array load `b[i]`. -/
def tget (b : Buf) (i : ℕ) : Option ℝ :=
  if h : i < b.length then some (b.get ⟨i, h⟩) else none

/-- The mutable locals of the generation loop of `FractalGeometry`
(source lines 91–102): current point `x`, `y` and the four running extrema. -/
structure GenSt where
  x : ℝ
  y : ℝ
  xMin : ℝ
  xMax : ℝ
  yMin : ℝ
  yMax : ℝ

/-- Coefficient randomization (source lines 84–88):
`a_val = a_min + random[0-1] * (a_max - a_min)`. -/
noncomputable def rndRange (mn mx u : ℝ) : ℝ := mn + u * (mx - mn)

/-- The iteration formula for `z` (source lines 116–118), selected by
`choice`. -/
noncomputable def zval (choice bl cl dl x : ℝ) : ℝ :=
  if choice < 1/2 then dl + Real.sqrt |bl * x - cl|
  else if choice < 3/4 then dl + Real.sqrt (Real.sqrt |bl * x - cl|)
  else dl + Real.log (2 + Real.sqrt |bl * x - cl|)

/-- The three iteration formulas by explicit branch number; written from the
spec text of §4.2 ("one of three branch formulas selected by choice") to be
compared against `zval`. -/
noncomputable def zvalBranch (k : ℕ) (bl cl dl x : ℝ) : ℝ :=
  match k with
  | 0 => dl + Real.sqrt |bl * x - cl|
  | 1 => dl + Real.sqrt (Real.sqrt |bl * x - cl|)
  | _ => dl + Real.log (2 + Real.sqrt |bl * x - cl|)

/-- Which of the three formulas a given `choice` value selects. -/
noncomputable def branchIndex (choice : ℝ) : ℕ :=
  if choice < 1/2 then 0 else if choice < 3/4 then 1 else 2

/-- The `x1` update (source lines 120–122). -/
noncomputable def x1val (x y z : ℝ) : ℝ :=
  if 0 < x then y - z else if x = 0 then y else y + z

/-- Running-minimum/maximum update for `x` (source lines 125–126):
`if (x < xMin) xMin = x; else if (x > xMax) xMax = x;`. -/
noncomputable def procX (st : GenSt) : GenSt :=
  if st.x < st.xMin then { st with xMin := st.x }
  else if st.xMax < st.x then { st with xMax := st.x }
  else st

/-- Running-minimum/maximum update for `y` (source lines 128–129). -/
noncomputable def procY (st : GenSt) : GenSt :=
  if st.y < st.yMin then { st with yMin := st.y }
  else if st.yMax < st.y then { st with yMax := st.y }
  else st

/-- One iteration of the inner point loop (source lines 114–137), with
`zf x = z` the iteration formula instantiated with `choice, b, c, d`:
compute `z` and `x1`, fold the pre-update `x`, `y` into the extrema, then
write `sets[bid+1] = y = al - x` and `sets[bid] = x = x1 + el`. -/
noncomputable def pointStep (zf : ℝ → ℝ) (al el : ℝ) (i : ℕ) (st : GenSt)
    (b : Buf) : Option (GenSt × Buf) :=
  let z := zf st.x
  let x1 := x1val st.x st.y z
  let st1 := procY (procX st)
  let bid := i * 2
  match tset b (bid + 1) (al - st.x) with
  | none => none
  | some b1 =>
    match tset b1 bid (x1 + el) with
    | none => none
    | some b2 => some ({ st1 with x := x1 + el, y := al - st.x }, b2)

/-- The inner point loop `for (i = 0; i < numPoints; i++)`; the first
argument of the recursion is the number of remaining iterations, the second
the current value of `i`. -/
noncomputable def pointLoop (zf : ℝ → ℝ) (al el : ℝ) :
    ℕ → ℕ → GenSt → Buf → Option (GenSt × Buf)
  | 0, _, st, b => some (st, b)
  | Nat.succ k, i, st, b =>
    match pointStep zf al el i st b with
    | none => none
    | some (st1, b1) => pointLoop zf al el k (i + 1) st1 b1

/-- Per-subset starting point (source lines 109–110):
`x = s / 100 * (0.5 - irnd()) as f32` where `s : i32`, so `s / 100` is the
integer division `i32.div_s` (see the header comment). -/
noncomputable def seedX (s : ℕ) (u : ℝ) : ℝ := ((s / 100 : ℕ) : ℝ) * (1/2 - u)

/-- The seed the spec describes. Modelled from the spec: §4.2 step 3 reads
"Initialize x = (s/100) × (0.5 − U(0,1))" with `s/100` the real-valued
quotient; kept separate from `seedX` (the source's integer quotient) so the
two can be compared. -/
noncomputable def seedSpec (s : ℕ) (u : ℝ) : ℝ := ((s : ℝ) / 100) * (1/2 - u)

/-- The outer subset loop `for (s = 0; s < numSubsets; s++)` of the
generation pass (source lines 105–138).  Arguments of the recursion: number
of remaining subsets, current `s`, current position `di` in the draw stream,
state, pool.  `reuse[s] as Float32Array` traps on an out-of-bounds index or
a `null` entry. -/
noncomputable def subsetLoop (zf : ℝ → ℝ) (al el : ℝ) (d : ℕ → ℝ) (np : ℕ) :
    ℕ → ℕ → ℕ → GenSt → Pool → Option (GenSt × Pool)
  | 0, _, _, st, pool => some (st, pool)
  | Nat.succ k, s, di, st, pool =>
    let st0 := { st with x := seedX s (d di), y := seedX s (d (di + 1)) }
    match pool.get? s with
    | none => none
    | some none => none
    | some (some b) =>
      match pointLoop zf al el np 0 st0 b with
      | none => none
      | some (st1, b1) =>
        subsetLoop zf al el d np k (s + 1) (di + 2) st1 (pool.set s (some b1))

/-- Generation pass shared between the real kernel and its per-branch
variant: run `subsetLoop` from the all-zero initial state with draw cursor 6
(the first five draws were the coefficients, draw 5 was `choice`). -/
noncomputable def generateWith (zf : ℝ → ℝ) (al el : ℝ) (d : ℕ → ℝ)
    (np nS : ℕ) (reuse : Pool) : Option (GenSt × Pool) :=
  subsetLoop zf al el d np nS 0 6
    { x := 0, y := 0, xMin := 0, xMax := 0, yMin := 0, yMax := 0 } reuse

/-- The generation pass of `FractalGeometry` (source lines 73–138): draw the
five coefficients and `choice`, then run the subset loop. -/
noncomputable def generatePass (ls d : ℕ → ℝ) (reuse : Pool) :
    Option (GenSt × Pool) :=
  let al := rndRange (ls 7) (ls 8) (d 0)
  let bl := rndRange (ls 9) (ls 10) (d 1)
  let cl := rndRange (ls 11) (ls 12) (d 2)
  let dl := rndRange (ls 13) (ls 14) (d 3)
  let el := rndRange (ls 15) (ls 16) (d 4)
  let choice := d 5
  generateWith (fun x => zval choice bl cl dl x) al el d
    (⌊ls 2⌋).toNat (⌊ls 1⌋).toNat reuse

/-- Source lines 179–183. -/
noncomputable def getPointDistance (x1 y1 x2 y2 : ℝ) : ℝ :=
  Real.sqrt ((x1 - x2) * (x1 - x2) + (y1 - y2) * (y1 - y2))

/-- The parameters of the normalization pass (locals of source
lines 141–145 plus the configuration values it reads). -/
structure NormPs where
  scaleX : ℝ
  scaleY : ℝ
  xMin : ℝ
  yMin : ℝ
  sF : ℝ
  iR : ℝ
  oR : ℝ

/-- Rescaling plus tunnel warp for one point (source lines 155–169). -/
noncomputable def normPoint (ps : NormPs) (rx ry : ℝ) : ℝ × ℝ :=
  let x := ps.scaleX * (rx - ps.xMin) - ps.sF
  let y := ps.scaleY * (ry - ps.yMin) - ps.sF
  if 0 < ps.iR then
    let dist := getPointDistance 0 0 x y / ps.sF
    if dist < ps.iR then
      let scaling := dist / ps.iR
      let outer := scaling / ps.oR
      (x / scaling + x * outer, y / scaling + y * outer)
    else (x, y)
  else (x, y)

/-- Whether the tunnel warp fires for the (pre-warp) scaled point. -/
noncomputable def warpFires (ps : NormPs) (rx ry : ℝ) : Prop :=
  0 < ps.iR ∧
    getPointDistance 0 0 (ps.scaleX * (rx - ps.xMin) - ps.sF)
        (ps.scaleY * (ry - ps.yMin) - ps.sF) / ps.sF < ps.iR

/-- One iteration of the inner normalization loop (source lines 151–173):
read `sets[bid]`, `sets[bid+1]`, rescale/warp, write both back. -/
noncomputable def normStep (ps : NormPs) (i : ℕ) (b : Buf) : Option Buf :=
  let bid := i * 2
  match tget b bid with
  | none => none
  | some rx =>
    match tget b (bid + 1) with
    | none => none
    | some ry =>
      let p := normPoint ps rx ry
      match tset b bid p.1 with
      | none => none
      | some b1 => tset b1 (bid + 1) p.2

/-- Inner normalization loop over the points of one subset. -/
noncomputable def normLoop (ps : NormPs) : ℕ → ℕ → Buf → Option Buf
  | 0, _, b => some b
  | Nat.succ k, i, b =>
    match normStep ps i b with
    | none => none
    | some b1 => normLoop ps k (i + 1) b1

/-- Outer normalization loop over the subsets (source lines 148–174). -/
noncomputable def normSubsets (ps : NormPs) (np : ℕ) :
    ℕ → ℕ → Pool → Option Pool
  | 0, _, pool => some pool
  | Nat.succ k, s, pool =>
    match pool.get? s with
    | none => none
    | some none => none
    | some (some b) =>
      match normLoop ps np 0 b with
      | none => none
      | some b1 => normSubsets ps np k (s + 1) (pool.set s (some b1))

/-- The normalization pass of `FractalGeometry` (source lines 140–174):
`scaleX = 2*scaleFactor/(xMax - xMin)`, `scaleY = 2*scaleFactor/(yMax -
yMin)`, inner radius `levelSettings[5]/100`, outer radius
`levelSettings[6]/100`. -/
noncomputable def normalizePass (ls : ℕ → ℝ) (st : GenSt) (pool : Pool) :
    Option Pool :=
  let scaleFactor := ls 3
  let ps : NormPs :=
    { scaleX := 2 * scaleFactor / (st.xMax - st.xMin)
      scaleY := 2 * scaleFactor / (st.yMax - st.yMin)
      xMin := st.xMin, yMin := st.yMin, sF := scaleFactor
      iR := ls 5 / 100, oR := ls 6 / 100 }
  normSubsets ps (⌊ls 2⌋).toNat (⌊ls 1⌋).toNat 0 pool

/-- `FractalGeometry(levelId, reuse)` (source lines 71–177): generation pass
then in-place normalization, returning the (mutated) pool.  `levelId` is
accepted and ignored, as in the source. -/
noncomputable def FractalGeometry (levelId : ℤ) (ls d : ℕ → ℝ) (reuse : Pool) :
    Option Pool :=
  match generatePass ls d reuse with
  | none => none
  | some (st, p1) => normalizePass ls st p1

/-- The kernel with the iteration-formula branch forced to `k` for every
subset and every point; used to state that one `choice` draw fixes the
branch for the whole invocation. -/
noncomputable def FractalGeometryBranch (levelId : ℤ) (k : ℕ) (ls d : ℕ → ℝ)
    (reuse : Pool) : Option Pool :=
  let bl := rndRange (ls 9) (ls 10) (d 1)
  let cl := rndRange (ls 11) (ls 12) (d 2)
  let dl := rndRange (ls 13) (ls 14) (d 3)
  match generateWith (fun x => zvalBranch k bl cl dl x)
      (rndRange (ls 7) (ls 8) (d 0)) (rndRange (ls 15) (ls 16) (d 4)) d
      (⌊ls 2⌋).toNat (⌊ls 1⌋).toNat reuse with
  | none => none
  | some (st, p1) => normalizePass ls st p1

/-- Pool allocation in `myBuild` (source lines 190–197): note it sizes the
pool from `levelSettings[0]` and the per-subset buffers from
`levelSettings[1] * 2`, and fills every fresh buffer with the sentinel
`123`. -/
noncomputable def alloc (ls : ℕ → ℝ) : Pool :=
  List.replicate (⌊ls 0⌋).toNat (some (List.replicate ((⌊ls 1⌋).toNat * 2) (123 : ℝ)))

/-- `myBuild(id)` (source lines 186–200): allocate the pool only when
`lastData == null`, then run `FractalGeometry` on it; the result becomes the
new `lastData`. -/
noncomputable def myBuild (levelId : ℤ) (ls d : ℕ → ℝ)
    (lastData : Option Pool) : Option Pool :=
  match lastData with
  | none => FractalGeometry levelId ls d (alloc ls)
  | some pool => FractalGeometry levelId ls d pool

/-- Exported `build(id)` (source lines 215–218). -/
noncomputable def build (levelId : ℤ) (ls d : ℕ → ℝ)
    (lastData : Option Pool) : Option Pool :=
  myBuild levelId ls d lastData

/-- A sequence of `build` calls, threading the `lastData` module state; each
list entry is the configuration vector and the draw stream of one call.
Returns the final `lastData` (`none` on a trap). -/
noncomputable def buildSeq :
    Option Pool → List ((ℕ → ℝ) × (ℕ → ℝ)) → Option (Option Pool)
  | st, [] => some st
  | st, (ls, d) :: rest =>
    match build 0 ls d st with
    | none => none
    | some p => buildSeq (some p) rest

/-- The shape precondition the two passes need: the pool provides a non-null
buffer of length at least `2 * np` for every subset index below `nS`. -/
def poolFits (nS np : ℕ) (pool : Pool) : Prop :=
  ∀ s, s < nS → ∃ b, pool.get? s = some (some b) ∧ np * 2 ≤ b.length

/-- Two pools that may differ only in the slots the kernel overwrites: same
length, identical entries at or beyond `nS`, and below `nS` buffers of equal
length agreeing at offsets `≥ 2 * np`. -/
def agreeOutside (nS np : ℕ) (p1 p2 : Pool) : Prop :=
  p1.length = p2.length ∧
  (∀ t, nS ≤ t → p1.get? t = p2.get? t) ∧
  (∀ t, t < nS → ∃ b1 b2, p1.get? t = some (some b1) ∧
      p2.get? t = some (some b2) ∧ b1.length = b2.length ∧
      ∀ j, np * 2 ≤ j → b1[j]? = b2[j]?)

/-! Section: Concrete configurations used to evaluate the kernel

`lsX` is a small honest configuration: field 0 = 1, subsetCount (field 1)
= 1, pointsPerSubset (field 2) = 2, scaleFactor (field 3) = 1, radii
(fields 5, 6) = 0, coefficient ranges pinned to a = 5, b = c = d = 0,
e = 1.  `d0` draws 0 every time. -/

noncomputable def lsX : ℕ → ℝ := fun n =>
  [1, 1, 2, 1, 0, 0, 0, 5, 5, 0, 0, 0, 0, 0, 0, 1, 1].getD n 0

noncomputable def d0 : ℕ → ℝ := fun _ => 0

/-- A draw stream that agrees with `d0` on the first 8 draws only. -/
noncomputable def dAlt : ℕ → ℝ := fun j => if j < 8 then 0 else 42

/-- A correctly sized pool for `lsX`: one buffer of length 4. -/
noncomputable def poolW : Pool := [some [123, 123, 123, 123]]

/-- Configuration for the resize scenario, first call: field 0 = 1,
subsetCount (field 1) = 0, pointsPerSubset (field 2) = 5. -/
noncomputable def lsA : ℕ → ℝ := fun n => [1, 0, 5].getD n 0

/-- Same as `lsA` but with pointsPerSubset (field 2) changed to 7. -/
noncomputable def lsB : ℕ → ℝ := fun n => [1, 0, 7].getD n 0

/-- Zero-points configuration with field 0 = 0 but subsetCount (field 1)
= 1: pointsPerSubset (field 2) = 0. -/
noncomputable def ls8x : ℕ → ℝ := fun n => [0, 1, 0].getD n 0

/-- Zero-points configuration with matching pool-count slot: field 0 = 1,
subsetCount (field 1) = 1, pointsPerSubset (field 2) = 0. -/
noncomputable def lsB0 : ℕ → ℝ := fun n => [1, 1, 0].getD n 0

/-- The normalization parameters `normalizePass` derives from `lsX` and the
final generation state of the `lsX` run. -/
noncomputable def psX : NormPs :=
  { scaleX := 2 * lsX 3 / ((1 : ℝ) - 0), scaleY := 2 * lsX 3 / ((5 : ℝ) - 0)
    xMin := 0, yMin := 0, sF := lsX 3, iR := lsX 5 / 100, oR := lsX 6 / 100 }

/-! Section: Pure trajectory view of the point loop -/

/-- State-only effect of one point-loop iteration. -/
noncomputable def stepSt (zf : ℝ → ℝ) (al el : ℝ) (st : GenSt) : GenSt :=
  { procY (procX st) with
    x := x1val st.x st.y (zf st.x) + el, y := al - st.x }

/-- Iterated `stepSt`. -/
noncomputable def iterSt (zf : ℝ → ℝ) (al el : ℝ) : ℕ → GenSt → GenSt
  | 0, st => st
  | Nat.succ k, st => iterSt zf al el k (stepSt zf al el st)

/-- The flat list of values the point loop writes, in buffer order
(`x` at the even offset, then `y` at the odd offset, per iteration). -/
noncomputable def emit (zf : ℝ → ℝ) (al el : ℝ) : ℕ → GenSt → List ℝ
  | 0, _ => []
  | Nat.succ k, st =>
    (stepSt zf al el st).x :: (stepSt zf al el st).y ::
      emit zf al el k (stepSt zf al el st)

/-- Overwrite `b` starting at offset `j` with the values `vs`. -/
def pasteAt (b : Buf) (j : ℕ) : List ℝ → Buf
  | [] => b
  | v :: vs => pasteAt (b.set j v) (j + 1) vs

theorem pasteAt_length (vs : List ℝ) : ∀ b j, (pasteAt b j vs).length = b.length := by
  induction vs with
  | nil => intro b j; rfl
  | cons v vs ih => intro b j; simp [pasteAt, ih]

theorem pasteAt_get_lt (vs : List ℝ) :
    ∀ b j m, m < j → (pasteAt b j vs)[m]? = b[m]? := by
  induction vs with
  | nil => intro b j m _; rfl
  | cons v vs ih =>
    intro b j m hm
    rw [pasteAt, ih _ _ _ (by omega), List.getElem?_set_ne (by omega)]

theorem pasteAt_get_ge (vs : List ℝ) :
    ∀ b j m, j + vs.length ≤ m → (pasteAt b j vs)[m]? = b[m]? := by
  induction vs with
  | nil => intro b j m _; rfl
  | cons v vs ih =>
    intro b j m hm
    simp only [List.length_cons] at hm
    rw [pasteAt, ih _ _ _ (by omega), List.getElem?_set_ne (by omega)]

theorem pasteAt_get_in (vs : List ℝ) :
    ∀ b j r, r < vs.length → j + vs.length ≤ b.length →
      (pasteAt b j vs)[j + r]? = vs[r]? := by
  induction vs with
  | nil => intro b j r hr; exact absurd hr (by simp)
  | cons v vs ih =>
    intro b j r hr hb
    simp only [List.length_cons] at hr hb
    match r with
    | 0 =>
      rw [pasteAt, pasteAt_get_lt _ _ _ _ (by omega)]
      simp only [Nat.add_zero]
      rw [List.getElem?_set_eq_of_lt v (show j < b.length by omega)]
      simp
    | Nat.succ r =>
      have hjr : j + (r + 1) = (j + 1) + r := by omega
      rw [pasteAt, hjr, ih _ _ _ (by omega) (by rw [List.length_set]; omega)]
      simp

/-- One successful `pointStep` is `stepSt` on the state plus a two-slot
overwrite of the buffer. -/
theorem pointStep_eq (zf : ℝ → ℝ) (al el : ℝ) (i : ℕ) (st : GenSt) (b : Buf)
    (h : i * 2 + 1 < b.length) :
    pointStep zf al el i st b =
      some (stepSt zf al el st,
        pasteAt b (i * 2)
          [x1val st.x st.y (zf st.x) + el, al - st.x]) := by
  have h0 : i * 2 < b.length := by omega
  simp only [pointStep, tset, if_pos h]
  rw [if_pos (by simpa using h0)]
  simp only [pasteAt, stepSt]
  rw [List.set_comm _ _ _ (by omega)]

/-- Characterization of a successful inner point loop: the final state is the
iterated state map and the buffer is overwritten at offsets
`[i*2, (i+k)*2)` with the emitted trajectory values. -/
theorem pointLoop_char (zf : ℝ → ℝ) (al el : ℝ) :
    ∀ k i st b, (i + k) * 2 ≤ b.length →
      pointLoop zf al el k i st b =
        some (iterSt zf al el k st, pasteAt b (i * 2) (emit zf al el k st)) := by
  intro k
  induction k with
  | zero => intro i st b _; rfl
  | succ k ih =>
    intro i st b hb
    rw [pointLoop, pointStep_eq zf al el i st b (by omega)]
    have hlen : ((i + 1) + k) * 2 ≤ (pasteAt b (i * 2) [x1val st.x st.y (zf st.x) + el, al - st.x]).length := by
      rw [pasteAt_length]; omega
    show pointLoop zf al el k (i + 1) (stepSt zf al el st)
        (pasteAt b (i * 2) [x1val st.x st.y (zf st.x) + el, al - st.x]) =
      some (iterSt zf al el (k + 1) st, pasteAt b (i * 2) (emit zf al el (k + 1) st))
    rw [ih (i + 1) (stepSt zf al el st) _ hlen]
    simp only [iterSt, emit, pasteAt]
    have h2 : i * 2 + 1 + 1 = (i + 1) * 2 := by omega
    rw [h2]
    rfl

/-! Section: Extrema invariants of the state step -/

theorem stepSt_xMin (zf : ℝ → ℝ) (al el : ℝ) (st : GenSt) :
    (stepSt zf al el st).xMin = (procY (procX st)).xMin := rfl

theorem stepSt_xMax (zf : ℝ → ℝ) (al el : ℝ) (st : GenSt) :
    (stepSt zf al el st).xMax = (procY (procX st)).xMax := rfl

theorem stepSt_yMin (zf : ℝ → ℝ) (al el : ℝ) (st : GenSt) :
    (stepSt zf al el st).yMin = (procY (procX st)).yMin := rfl

theorem stepSt_yMax (zf : ℝ → ℝ) (al el : ℝ) (st : GenSt) :
    (stepSt zf al el st).yMax = (procY (procX st)).yMax := rfl

/-- Each extrema update only widens its side. -/
theorem stepSt_widen (zf : ℝ → ℝ) (al el : ℝ) (st : GenSt) :
    (stepSt zf al el st).xMin ≤ st.xMin ∧ st.xMax ≤ (stepSt zf al el st).xMax ∧
    (stepSt zf al el st).yMin ≤ st.yMin ∧ st.yMax ≤ (stepSt zf al el st).yMax := by
  rw [stepSt_xMin, stepSt_xMax, stepSt_yMin, stepSt_yMax]
  unfold procX procY
  split_ifs <;> simp_all <;> (repeat' constructor) <;> linarith

/-- The interval orders `xMin ≤ xMax`, `yMin ≤ yMax` are preserved. -/
theorem stepSt_ord (zf : ℝ → ℝ) (al el : ℝ) (st : GenSt)
    (hx : st.xMin ≤ st.xMax) (hy : st.yMin ≤ st.yMax) :
    (stepSt zf al el st).xMin ≤ (stepSt zf al el st).xMax ∧
    (stepSt zf al el st).yMin ≤ (stepSt zf al el st).yMax := by
  rw [stepSt_xMin, stepSt_xMax, stepSt_yMin, stepSt_yMax]
  unfold procX procY
  split_ifs <;> simp_all <;> (repeat' constructor) <;> linarith

/-- After a step, the pre-update point is inside the tracked intervals. -/
theorem stepSt_contain (zf : ℝ → ℝ) (al el : ℝ) (st : GenSt)
    (hx : st.xMin ≤ st.xMax) (hy : st.yMin ≤ st.yMax) :
    (stepSt zf al el st).xMin ≤ st.x ∧ st.x ≤ (stepSt zf al el st).xMax ∧
    (stepSt zf al el st).yMin ≤ st.y ∧ st.y ≤ (stepSt zf al el st).yMax := by
  rw [stepSt_xMin, stepSt_xMax, stepSt_yMin, stepSt_yMax]
  unfold procX procY
  split_ifs <;> simp_all <;> (repeat' constructor) <;> linarith

theorem iterSt_succ_out (zf : ℝ → ℝ) (al el : ℝ) :
    ∀ k st, iterSt zf al el (k + 1) st = stepSt zf al el (iterSt zf al el k st) := by
  intro k
  induction k with
  | zero => intro st; rfl
  | succ k ih =>
    intro st
    show iterSt zf al el (k + 1) (stepSt zf al el st) = _
    rw [ih]
    rfl

theorem iterSt_add (zf : ℝ → ℝ) (al el : ℝ) :
    ∀ a b st, iterSt zf al el (a + b) st = iterSt zf al el a (iterSt zf al el b st) := by
  intro a b
  induction b with
  | zero => intro st; rfl
  | succ b ih =>
    intro st
    have h1 : a + (b + 1) = (a + b) + 1 := by omega
    rw [h1, iterSt_succ_out, ih, iterSt_succ_out zf al el b st,
      ← iterSt_succ_out zf al el a (iterSt zf al el b st)]
    rfl

theorem iterSt_widen (zf : ℝ → ℝ) (al el : ℝ) :
    ∀ k st, (iterSt zf al el k st).xMin ≤ st.xMin ∧
      st.xMax ≤ (iterSt zf al el k st).xMax ∧
      (iterSt zf al el k st).yMin ≤ st.yMin ∧
      st.yMax ≤ (iterSt zf al el k st).yMax := by
  intro k
  induction k with
  | zero => intro st; exact ⟨le_refl _, le_refl _, le_refl _, le_refl _⟩
  | succ k ih =>
    intro st
    have h1 := ih (stepSt zf al el st)
    have h2 := stepSt_widen zf al el st
    show (iterSt zf al el k (stepSt zf al el st)).xMin ≤ st.xMin ∧ _
    exact ⟨le_trans h1.1 h2.1, le_trans h2.2.1 h1.2.1,
      le_trans h1.2.2.1 h2.2.2.1, le_trans h2.2.2.2 h1.2.2.2⟩

theorem iterSt_ord (zf : ℝ → ℝ) (al el : ℝ) :
    ∀ k st, st.xMin ≤ st.xMax → st.yMin ≤ st.yMax →
      (iterSt zf al el k st).xMin ≤ (iterSt zf al el k st).xMax ∧
      (iterSt zf al el k st).yMin ≤ (iterSt zf al el k st).yMax := by
  intro k
  induction k with
  | zero => intro st hx hy; exact ⟨hx, hy⟩
  | succ k ih =>
    intro st hx hy
    have h := stepSt_ord zf al el st hx hy
    exact ih (stepSt zf al el st) h.1 h.2

/-- The point that the loop holds at the start of iteration `j` (that is,
`iterSt j` applied to the subset's seeded state) lies within the extrema
tracked after any later number `k > j` of iterations. -/
theorem iterSt_entry_contain (zf : ℝ → ℝ) (al el : ℝ) (k j : ℕ) (st : GenSt)
    (hjk : j < k) (hx : st.xMin ≤ st.xMax) (hy : st.yMin ≤ st.yMax) :
    (iterSt zf al el k st).xMin ≤ (iterSt zf al el j st).x ∧
    (iterSt zf al el j st).x ≤ (iterSt zf al el k st).xMax ∧
    (iterSt zf al el k st).yMin ≤ (iterSt zf al el j st).y ∧
    (iterSt zf al el j st).y ≤ (iterSt zf al el k st).yMax := by
  have hord := iterSt_ord zf al el j st hx hy
  have hcont := stepSt_contain zf al el (iterSt zf al el j st) hord.1 hord.2
  rw [← iterSt_succ_out] at hcont
  have hk : k = (k - (j + 1)) + (j + 1) := by omega
  have hw := iterSt_widen zf al el (k - (j + 1)) (iterSt zf al el (j + 1) st)
  rw [← iterSt_add] at hw
  rw [← hk] at hw
  exact ⟨le_trans hw.1 hcont.1, le_trans hcont.2.1 hw.2.1,
    le_trans hw.2.2.1 hcont.2.2.1, le_trans hcont.2.2.2 hw.2.2.2⟩

theorem emit_length (zf : ℝ → ℝ) (al el : ℝ) :
    ∀ k st, (emit zf al el k st).length = k * 2 := by
  intro k
  induction k with
  | zero => intro st; rfl
  | succ k ih => intro st; simp [emit, ih]; omega

/-- The values the loop writes for point `i` are the `x`, `y` components of
the state after `i + 1` steps. -/
theorem emit_get (zf : ℝ → ℝ) (al el : ℝ) :
    ∀ k st i, i < k →
      (emit zf al el k st)[i * 2]? = some ((iterSt zf al el (i + 1) st).x) ∧
      (emit zf al el k st)[i * 2 + 1]? = some ((iterSt zf al el (i + 1) st).y) := by
  intro k
  induction k with
  | zero => intro st i hi; omega
  | succ k ih =>
    intro st i hi
    match i with
    | 0 =>
      refine ⟨?_, ?_⟩
      · simp only [emit, Nat.zero_mul, List.getElem?_cons_zero]
        rfl
      · simp only [emit, Nat.zero_mul, Nat.zero_add, List.getElem?_cons_succ,
          List.getElem?_cons_zero]
        rfl
    | Nat.succ i =>
      have h2 := ih (stepSt zf al el st) i (by omega)
      have e1 : (i + 1) * 2 = i * 2 + 1 + 1 := by omega
      have e2 : (i + 1) * 2 + 1 = i * 2 + 1 + 1 + 1 := by omega
      refine ⟨?_, ?_⟩
      · rw [e1]
        simp only [emit, List.getElem?_cons_succ]
        rw [h2.1]
        rfl
      · rw [e2]
        simp only [emit, List.getElem?_cons_succ]
        rw [h2.2]
        rfl

/-! Section: List access helpers -/

theorem get?_set_ne' {α : Type} (p : List α) (s t : ℕ) (v : α) (h : s ≠ t) :
    (p.set s v).get? t = p.get? t := by
  rw [List.get?_eq_getElem?, List.get?_eq_getElem?, List.getElem?_set_ne h]

theorem get?_set_self' {α : Type} (p : List α) (s : ℕ) (v : α)
    (h : s < p.length) : (p.set s v).get? s = some v := by
  rw [List.get?_eq_getElem?, List.getElem?_set_eq_of_lt v h]

theorem get?_some_lt {α : Type} {p : List α} {s : ℕ} {x : α}
    (h : p.get? s = some x) : s < p.length := by
  by_contra hc
  rw [List.get?_eq_none.mpr (le_of_not_lt hc)] at h
  exact Option.noConfusion h

theorem tget_eq (b : Buf) (i : ℕ) : tget b i = b[i]? := by
  rw [tget]
  split
  · next h => rw [List.getElem?_eq_getElem h]; rfl
  · next h => rw [List.getElem?_eq_none (le_of_not_lt h)]

/-! Section: Characterization of the generation subset loop -/

/-- Everything the rest of the development needs about a successful
generation pass: the loop succeeds under the shape precondition, the final
extrema only widen the entry extrema and stay ordered, buffers outside the
processed subset range and slots at offsets `≥ numPoints * 2` are untouched,
and every value written for a point other than a subset's last one lies
within the final extrema (its value is the entry state of the following
iteration, which folds it into the extrema before overwriting it). -/
theorem subsetLoop_spec (zf : ℝ → ℝ) (al el : ℝ) (d : ℕ → ℝ) (np : ℕ) :
    ∀ k s di st pool,
      st.xMin ≤ st.xMax → st.yMin ≤ st.yMax →
      (∀ t, s ≤ t → t < s + k → ∃ b, pool.get? t = some (some b) ∧ np * 2 ≤ b.length) →
      ∃ stF poolF, subsetLoop zf al el d np k s di st pool = some (stF, poolF) ∧
        stF.xMin ≤ st.xMin ∧ st.xMax ≤ stF.xMax ∧
        stF.yMin ≤ st.yMin ∧ st.yMax ≤ stF.yMax ∧
        stF.xMin ≤ stF.xMax ∧ stF.yMin ≤ stF.yMax ∧
        poolF.length = pool.length ∧
        (∀ t, t < s ∨ s + k ≤ t → poolF.get? t = pool.get? t) ∧
        (∀ t, s ≤ t → t < s + k → ∃ b0 b, pool.get? t = some (some b0) ∧
          poolF.get? t = some (some b) ∧ b.length = b0.length ∧
          (∀ j, np * 2 ≤ j → b[j]? = b0[j]?) ∧
          (∀ i, i + 1 < np → ∃ rx ry, b[i * 2]? = some rx ∧ b[i * 2 + 1]? = some ry ∧
            stF.xMin ≤ rx ∧ rx ≤ stF.xMax ∧ stF.yMin ≤ ry ∧ ry ≤ stF.yMax)) := by
  intro k
  induction k with
  | zero =>
    intro s di st pool hx hy _
    exact ⟨st, pool, rfl, le_refl _, le_refl _, le_refl _, le_refl _, hx, hy, rfl,
      fun t _ => rfl, fun t h1 h2 => by omega⟩
  | succ k ih =>
    intro s di st pool hx hy hcov
    obtain ⟨b, hb, hblen⟩ := hcov s (le_refl s) (by omega)
    set st0 : GenSt := { st with x := seedX s (d di), y := seedX s (d (di + 1)) } with hst0
    have hx0 : st0.xMin ≤ st0.xMax := hx
    have hy0 : st0.yMin ≤ st0.yMax := hy
    have hpl := pointLoop_char zf al el np 0 st0 b (by simpa using hblen)
    set b1 : Buf := pasteAt b 0 (emit zf al el np st0) with hb1def
    set st1 : GenSt := iterSt zf al el np st0 with hst1def
    have hslen : s < pool.length := get?_some_lt hb
    have hcov' : ∀ t, s + 1 ≤ t → t < (s + 1) + k →
        ∃ bb, (pool.set s (some b1)).get? t = some (some bb) ∧ np * 2 ≤ bb.length := by
      intro t ht1 ht2
      rw [get?_set_ne' _ _ _ _ (by omega)]
      exact hcov t (by omega) (by omega)
    obtain ⟨stF, poolF, hrec, w1, w2, w3, w4, o1, o2, hlenF, hoff, hin⟩ :=
      ih (s + 1) (di + 2) st1 (pool.set s (some b1))
        (iterSt_ord zf al el np st0 hx0 hy0).1 (iterSt_ord zf al el np st0 hx0 hy0).2 hcov'
    refine ⟨stF, poolF, ?_, ?_, ?_, ?_, ?_, o1, o2, ?_, ?_, ?_⟩
    · rw [subsetLoop]
      simp only [← hst0, hb, hpl]
      exact hrec
    · exact le_trans w1 (iterSt_widen zf al el np st0).1
    · exact le_trans (iterSt_widen zf al el np st0).2.1 w2
    · exact le_trans w3 (iterSt_widen zf al el np st0).2.2.1
    · exact le_trans (iterSt_widen zf al el np st0).2.2.2 w4
    · rw [hlenF, List.length_set]
    · intro t ht
      have hne : s ≠ t := by omega
      rw [hoff t (by omega), get?_set_ne' _ _ _ _ hne]
    · intro t ht1 ht2
      rcases Nat.eq_or_lt_of_le ht1 with hts | hts
      · subst hts
        refine ⟨b, b1, hb, ?_, ?_, ?_, ?_⟩
        · rw [hoff s (by omega), get?_set_self' _ _ _ hslen]
        · rw [hb1def, pasteAt_length]
        · intro j hj
          rw [hb1def, pasteAt_get_ge _ _ _ _ (by rw [emit_length]; omega)]
        · intro i hi
          have hg := emit_get zf al el np st0 i (by omega)
          have hrx : b1[i * 2]? = some ((iterSt zf al el (i + 1) st0).x) := by
            rw [hb1def]
            have := pasteAt_get_in (emit zf al el np st0) b 0 (i * 2)
              (by rw [emit_length]; omega) (by rw [emit_length]; omega)
            simpa [hg.1] using this
          have hry : b1[i * 2 + 1]? = some ((iterSt zf al el (i + 1) st0).y) := by
            rw [hb1def]
            have := pasteAt_get_in (emit zf al el np st0) b 0 (i * 2 + 1)
              (by rw [emit_length]; omega) (by rw [emit_length]; omega)
            simpa [hg.2] using this
          have hcont := iterSt_entry_contain zf al el np (i + 1) st0 hi hx0 hy0
          exact ⟨_, _, hrx, hry,
            le_trans w1 hcont.1, le_trans hcont.2.1 w2,
            le_trans w3 hcont.2.2.1, le_trans hcont.2.2.2 w4⟩
      · obtain ⟨b0, bb, h1, h2, h3, h4, h5⟩ := hin t hts (by omega)
        rw [get?_set_ne' _ _ _ _ (by omega)] at h1
        exact ⟨b0, bb, h1, h2, h3, h4, h5⟩

/-- The generation pass never reads the slots it writes: two pools of the
same shape that agree outside the overwritten region produce the same final
state and the same final pool. -/
theorem subsetLoop_parallel (zf : ℝ → ℝ) (al el : ℝ) (d : ℕ → ℝ) (np : ℕ) :
    ∀ k s di st p1 p2,
      (∀ t, s ≤ t → t < s + k → ∃ b, p1.get? t = some (some b) ∧ np * 2 ≤ b.length) →
      p1.length = p2.length →
      (∀ t, t < s ∨ s + k ≤ t → p1.get? t = p2.get? t) →
      (∀ t, s ≤ t → t < s + k → ∃ b1 b2, p1.get? t = some (some b1) ∧
        p2.get? t = some (some b2) ∧ b1.length = b2.length ∧
        ∀ j, np * 2 ≤ j → b1[j]? = b2[j]?) →
      ∃ stF pF, subsetLoop zf al el d np k s di st p1 = some (stF, pF) ∧
        subsetLoop zf al el d np k s di st p2 = some (stF, pF) := by
  intro k
  induction k with
  | zero =>
    intro s di st p1 p2 _ hlen hout _
    have : p1 = p2 := by
      apply List.ext_getElem?
      intro n
      rw [← List.get?_eq_getElem?, ← List.get?_eq_getElem?]
      exact hout n (by omega)
    subst this
    exact ⟨st, p1, rfl, rfl⟩
  | succ k ih =>
    intro s di st p1 p2 hcov hlen hout hpair
    obtain ⟨b1, b2, hb1, hb2, hblen, htail⟩ := hpair s (le_refl s) (by omega)
    obtain ⟨bc, hbc, hbclen⟩ := hcov s (le_refl s) (by omega)
    rw [hb1] at hbc
    have hb1len : np * 2 ≤ b1.length := by
      cases hbc
      exact hbclen
    set st0 : GenSt := { st with x := seedX s (d di), y := seedX s (d (di + 1)) } with hst0
    have hpl1 := pointLoop_char zf al el np 0 st0 b1 (by simpa using hb1len)
    have hpl2 := pointLoop_char zf al el np 0 st0 b2
      (by rw [← hblen]; simpa using hb1len)
    set nb1 : Buf := pasteAt b1 0 (emit zf al el np st0) with hnb1
    set nb2 : Buf := pasteAt b2 0 (emit zf al el np st0) with hnb2
    have hb2len : np * 2 ≤ b2.length := by rw [← hblen]; exact hb1len
    have hnb : nb1 = nb2 := by
      apply List.ext_getElem?
      intro m
      by_cases hm : m < np * 2
      · have e1 := pasteAt_get_in (emit zf al el np st0) b1 0 m
          (by rw [emit_length]; omega) (by rw [emit_length]; omega)
        have e2 := pasteAt_get_in (emit zf al el np st0) b2 0 m
          (by rw [emit_length]; omega) (by rw [emit_length]; omega)
        simp only [Nat.zero_add] at e1 e2
        rw [hnb1, hnb2, e1, e2]
      · rw [hnb1, hnb2, pasteAt_get_ge _ _ _ _ (by rw [emit_length]; omega),
          pasteAt_get_ge _ _ _ _ (by rw [emit_length]; omega)]
        exact htail m (by omega)
    have hs1 : s < p1.length := get?_some_lt hb1
    have hs2 : s < p2.length := by rw [← hlen]; exact hs1
    obtain ⟨stF, pF, hr1, hr2⟩ := ih (s + 1) (di + 2) (iterSt zf al el np st0)
      (p1.set s (some nb1)) (p2.set s (some nb1))
      (by
        intro t ht1 ht2
        rw [get?_set_ne' _ _ _ _ (by omega)]
        exact hcov t (by omega) (by omega))
      (by rw [List.length_set, List.length_set, hlen])
      (by
        intro t ht
        by_cases hts : t = s
        · subst hts
          rw [get?_set_self' _ _ _ hs1, get?_set_self' _ _ _ hs2]
        · rw [get?_set_ne' _ _ _ _ (Ne.symm hts), get?_set_ne' _ _ _ _ (Ne.symm hts)]
          exact hout t (by omega))
      (by
        intro t ht1 ht2
        rw [get?_set_ne' _ _ _ _ (by omega), get?_set_ne' _ _ _ _ (by omega)]
        exact hpair t (by omega) (by omega))
    refine ⟨stF, pF, ?_, ?_⟩
    · rw [subsetLoop]
      simp only [← hst0, hb1, hpl1]
      exact hr1
    · rw [subsetLoop]
      simp only [← hst0, hb2, hpl2]
      rw [← hnb]
      exact hr2

/-! Section: Characterization of the normalization pass -/

theorem normLoop_char (ps : NormPs) :
    ∀ k i b, (i + k) * 2 ≤ b.length →
      ∃ b1, normLoop ps k i b = some b1 ∧ b1.length = b.length ∧
        (∀ m, m < i * 2 ∨ (i + k) * 2 ≤ m → b1[m]? = b[m]?) ∧
        (∀ r, i ≤ r → r < i + k → ∃ rx ry, b[r * 2]? = some rx ∧
          b[r * 2 + 1]? = some ry ∧
          b1[r * 2]? = some ((normPoint ps rx ry).1) ∧
          b1[r * 2 + 1]? = some ((normPoint ps rx ry).2)) := by
  intro k
  induction k with
  | zero =>
    intro i b _
    exact ⟨b, rfl, rfl, fun m _ => rfl, fun r h1 h2 => by omega⟩
  | succ k ih =>
    intro i b hb
    have hx : i * 2 < b.length := by omega
    have hy : i * 2 + 1 < b.length := by omega
    obtain ⟨rx, hrx⟩ : ∃ v, b[i * 2]? = some v := by
      rw [List.getElem?_eq_getElem hx]
      exact ⟨_, rfl⟩
    obtain ⟨ry, hry⟩ : ∃ v, b[i * 2 + 1]? = some v := by
      rw [List.getElem?_eq_getElem hy]
      exact ⟨_, rfl⟩
    set p := normPoint ps rx ry with hp
    set b' : Buf := (b.set (i * 2) p.1).set (i * 2 + 1) p.2 with hb'
    have hlen' : b'.length = b.length := by
      rw [hb', List.length_set, List.length_set]
    obtain ⟨b1, hrec, hlen1, hoff, hinr⟩ := ih (i + 1) b' (by rw [hlen']; omega)
    have hstep : normStep ps i b = some b' := by
      rw [normStep]
      simp only [tget_eq, hrx, hry, ← hp, tset, if_pos hx]
      rw [if_pos (by rw [List.length_set]; exact hy)]
    refine ⟨b1, ?_, by rw [hlen1, hlen'], ?_, ?_⟩
    · rw [normLoop, hstep]
      exact hrec
    · intro m hm
      rw [hoff m (by omega), hb',
        List.getElem?_set_ne (show i * 2 + 1 ≠ m by omega),
        List.getElem?_set_ne (show i * 2 ≠ m by omega)]
    · intro r hr1 hr2
      rcases Nat.eq_or_lt_of_le hr1 with hri | hri
      · subst hri
        refine ⟨rx, ry, hrx, hry, ?_, ?_⟩
        · rw [hoff (i * 2) (by omega), hb',
            List.getElem?_set_ne (show i * 2 + 1 ≠ i * 2 by omega),
            List.getElem?_set_eq_of_lt _ hx]
        · rw [hoff (i * 2 + 1) (by omega), hb',
            List.getElem?_set_eq_of_lt _ (by rw [List.length_set]; exact hy)]
      · obtain ⟨ax, ay, h1, h2, h3, h4⟩ := hinr r hri (by omega)
        rw [hb', List.getElem?_set_ne (show i * 2 + 1 ≠ r * 2 by omega),
          List.getElem?_set_ne (show i * 2 ≠ r * 2 by omega)] at h1
        rw [hb', List.getElem?_set_ne (show i * 2 + 1 ≠ r * 2 + 1 by omega),
          List.getElem?_set_ne (show i * 2 ≠ r * 2 + 1 by omega)] at h2
        exact ⟨ax, ay, h1, h2, h3, h4⟩

theorem normSubsets_spec (ps : NormPs) (np : ℕ) :
    ∀ k s pool,
      (∀ t, s ≤ t → t < s + k → ∃ b, pool.get? t = some (some b) ∧ np * 2 ≤ b.length) →
      ∃ poolF, normSubsets ps np k s pool = some poolF ∧
        poolF.length = pool.length ∧
        (∀ t, t < s ∨ s + k ≤ t → poolF.get? t = pool.get? t) ∧
        (∀ t, s ≤ t → t < s + k → ∃ b0 b, pool.get? t = some (some b0) ∧
          poolF.get? t = some (some b) ∧ b.length = b0.length ∧
          (∀ j, np * 2 ≤ j → b[j]? = b0[j]?) ∧
          (∀ i, i < np → ∃ rx ry, b0[i * 2]? = some rx ∧ b0[i * 2 + 1]? = some ry ∧
            b[i * 2]? = some ((normPoint ps rx ry).1) ∧
            b[i * 2 + 1]? = some ((normPoint ps rx ry).2))) := by
  intro k
  induction k with
  | zero =>
    intro s pool _
    exact ⟨pool, rfl, rfl, fun t _ => rfl, fun t h1 h2 => by omega⟩
  | succ k ih =>
    intro s pool hcov
    obtain ⟨b, hb, hblen⟩ := hcov s (le_refl s) (by omega)
    obtain ⟨b1, hnl, hlen1, hoff1, hin1⟩ := normLoop_char ps np 0 b (by simpa using hblen)
    have hslen : s < pool.length := get?_some_lt hb
    obtain ⟨poolF, hrec, hlenF, hoffF, hinF⟩ := ih (s + 1) (pool.set s (some b1))
      (by
        intro t ht1 ht2
        rw [get?_set_ne' _ _ _ _ (by omega)]
        exact hcov t (by omega) (by omega))
    refine ⟨poolF, ?_, ?_, ?_, ?_⟩
    · rw [normSubsets, hb]
      simp only [hnl]
      exact hrec
    · rw [hlenF, List.length_set]
    · intro t ht
      rw [hoffF t (by omega), get?_set_ne' _ _ _ _ (by omega)]
    · intro t ht1 ht2
      rcases Nat.eq_or_lt_of_le ht1 with hts | hts
      · subst hts
        refine ⟨b, b1, hb, ?_, hlen1, ?_, ?_⟩
        · rw [hoffF s (by omega), get?_set_self' _ _ _ hslen]
        · intro j hj
          exact hoff1 j (by omega)
        · intro i hi
          obtain ⟨rx, ry, h1, h2, h3, h4⟩ := hin1 i (by omega) (by omega)
          exact ⟨rx, ry, h1, h2, h3, h4⟩
      · obtain ⟨b0, bb, h1, h2, h3, h4, h5⟩ := hinF t hts (by omega)
        rw [get?_set_ne' _ _ _ _ (by omega)] at h1
        exact ⟨b0, bb, h1, h2, h3, h4, h5⟩

/-! Section: Pass-level wrappers -/

theorem generatePass_eq (ls d : ℕ → ℝ) (pool : Pool) :
    generatePass ls d pool =
      generateWith
        (fun x => zval (d 5) (rndRange (ls 9) (ls 10) (d 1))
          (rndRange (ls 11) (ls 12) (d 2)) (rndRange (ls 13) (ls 14) (d 3)) x)
        (rndRange (ls 7) (ls 8) (d 0)) (rndRange (ls 15) (ls 16) (d 4)) d
        (⌊ls 2⌋).toNat (⌊ls 1⌋).toNat pool := rfl

theorem generateWith_spec (zf : ℝ → ℝ) (al el : ℝ) (d : ℕ → ℝ) (np nS : ℕ)
    (pool : Pool) (hfit : poolFits nS np pool) :
    ∃ st p1, generateWith zf al el d np nS pool = some (st, p1) ∧
      st.xMin ≤ 0 ∧ 0 ≤ st.xMax ∧ st.yMin ≤ 0 ∧ 0 ≤ st.yMax ∧
      st.xMin ≤ st.xMax ∧ st.yMin ≤ st.yMax ∧
      p1.length = pool.length ∧
      (∀ t, nS ≤ t → p1.get? t = pool.get? t) ∧
      (∀ t, t < nS → ∃ b0 b, pool.get? t = some (some b0) ∧
        p1.get? t = some (some b) ∧ b.length = b0.length ∧
        (∀ j, np * 2 ≤ j → b[j]? = b0[j]?) ∧
        (∀ i, i + 1 < np → ∃ rx ry, b[i * 2]? = some rx ∧ b[i * 2 + 1]? = some ry ∧
          st.xMin ≤ rx ∧ rx ≤ st.xMax ∧ st.yMin ≤ ry ∧ ry ≤ st.yMax)) := by
  obtain ⟨stF, poolF, hrun, w1, w2, w3, w4, o1, o2, hlen, hoff, hin⟩ :=
    subsetLoop_spec zf al el d np nS 0 6
      { x := 0, y := 0, xMin := 0, xMax := 0, yMin := 0, yMax := 0 } pool
      (le_refl 0) (le_refl 0)
      (fun t _ ht2 => hfit t (by omega))
  refine ⟨stF, poolF, hrun, w1, w2, w3, w4, o1, o2, hlen, ?_, ?_⟩
  · intro t ht
    exact hoff t (by omega)
  · intro t ht
    exact hin t (by omega) (by omega)

/-- A pool whose entries keep their lengths still fits. -/
theorem poolFits_of_gen (nS np : ℕ) {pool p1 : Pool}
    (hin : ∀ t, t < nS → ∃ b0 b, pool.get? t = some (some b0) ∧
      p1.get? t = some (some b) ∧ b.length = b0.length)
    (hfit : poolFits nS np pool) : poolFits nS np p1 := by
  intro t ht
  obtain ⟨b0, b, h1, h2, h3⟩ := hin t ht
  obtain ⟨bc, hbc, hbl⟩ := hfit t ht
  rw [h1] at hbc
  cases hbc
  exact ⟨b, h2, by rw [h3]; exact hbl⟩

theorem normalizePass_eq (ls : ℕ → ℝ) (st : GenSt) (pool : Pool) :
    normalizePass ls st pool =
      normSubsets
        { scaleX := 2 * ls 3 / (st.xMax - st.xMin)
          scaleY := 2 * ls 3 / (st.yMax - st.yMin)
          xMin := st.xMin, yMin := st.yMin, sF := ls 3
          iR := ls 5 / 100, oR := ls 6 / 100 }
        (⌊ls 2⌋).toNat (⌊ls 1⌋).toNat 0 pool := rfl

theorem FractalGeometry_eq (lid : ℤ) (ls d : ℕ → ℝ) (pool : Pool) :
    FractalGeometry lid ls d pool =
      match generatePass ls d pool with
      | none => none
      | some (st, p1) => normalizePass ls st p1 := rfl

/-! Section: Branch selection and draw consumption -/

theorem zval_eq_zvalBranch (c bl cl dl x : ℝ) :
    zval c bl cl dl x = zvalBranch (branchIndex c) bl cl dl x := by
  unfold zval zvalBranch branchIndex
  split_ifs <;> rfl

theorem FractalGeometry_eq_branch (lid : ℤ) (ls d : ℕ → ℝ) (pool : Pool) :
    FractalGeometry lid ls d pool =
      FractalGeometryBranch lid (branchIndex (d 5)) ls d pool := by
  have hz : (fun x => zval (d 5) (rndRange (ls 9) (ls 10) (d 1))
        (rndRange (ls 11) (ls 12) (d 2)) (rndRange (ls 13) (ls 14) (d 3)) x)
      = (fun x => zvalBranch (branchIndex (d 5)) (rndRange (ls 9) (ls 10) (d 1))
        (rndRange (ls 11) (ls 12) (d 2)) (rndRange (ls 13) (ls 14) (d 3)) x) :=
    funext fun x => zval_eq_zvalBranch _ _ _ _ x
  show (match generatePass ls d pool with
    | none => none
    | some (st, p1) => normalizePass ls st p1) = _
  rw [generatePass_eq, hz]
  rfl

/-- The subset loop reads the draw stream only at the seed indices
`di, di + 1, di + 2, …, di + k * 2 - 1`. -/
theorem subsetLoop_draws (zf : ℝ → ℝ) (al el : ℝ) (np : ℕ) (d1 d2 : ℕ → ℝ) :
    ∀ k s di st pool, (∀ j, di ≤ j → j < di + k * 2 → d1 j = d2 j) →
      subsetLoop zf al el d1 np k s di st pool =
        subsetLoop zf al el d2 np k s di st pool := by
  intro k
  induction k with
  | zero => intro s di st pool _; rfl
  | succ k ih =>
    intro s di st pool h
    rw [subsetLoop, subsetLoop, h di (le_refl _) (by omega),
      h (di + 1) (by omega) (by omega)]
    cases hg : pool.get? s with
    | none => rfl
    | some ob =>
      cases ob with
      | none => rfl
      | some b =>
        simp only []
        cases hp : pointLoop zf al el np 0
            { st with x := seedX s (d2 di), y := seedX s (d2 (di + 1)) } b with
        | none => rfl
        | some r =>
          exact ih (s + 1) (di + 2) r.1 (pool.set s (some r.2))
            (fun j hj1 hj2 => h j (by omega) (by omega))

/-- The whole kernel reads the draw stream only at indices
`< 6 + numSubsets * 2`. -/
theorem FractalGeometry_draws (lid : ℤ) (ls : ℕ → ℝ) (d1 d2 : ℕ → ℝ) (pool : Pool)
    (h : ∀ j, j < 6 + (⌊ls 1⌋).toNat * 2 → d1 j = d2 j) :
    FractalGeometry lid ls d1 pool = FractalGeometry lid ls d2 pool := by
  rw [FractalGeometry_eq, FractalGeometry_eq, generatePass_eq, generatePass_eq,
    h 0 (by omega), h 1 (by omega), h 2 (by omega), h 3 (by omega),
    h 4 (by omega), h 5 (by omega)]
  rw [generateWith, generateWith,
    subsetLoop_draws _ _ _ _ d1 d2 (⌊ls 1⌋).toNat 0 6 _ pool
      (fun j hj1 hj2 => h j (by omega))]

/-! Section: Concrete evaluation of the kernel on `lsX` -/

theorem rnd000 : rndRange 0 0 0 = 0 := by norm_num [rndRange]

theorem rnd550 : rndRange 5 5 0 = 5 := by norm_num [rndRange]

theorem rnd110 : rndRange 1 1 0 = 1 := by norm_num [rndRange]

theorem zval_zero (x : ℝ) : zval 0 0 0 0 x = 0 := by
  rw [zval, if_pos (by norm_num : (0:ℝ) < 1/2)]
  simp

theorem seedX_zero (u : ℝ) : seedX 0 u = 0 := by
  rw [seedX]
  norm_num

theorem zfX_eval : (fun x => zval (d0 5) (rndRange (lsX 9) (lsX 10) (d0 1))
    (rndRange (lsX 11) (lsX 12) (d0 2)) (rndRange (lsX 13) (lsX 14) (d0 3)) x)
    = fun _ => (0 : ℝ) := by
  funext x
  show zval (d0 5) (rndRange (lsX 9) (lsX 10) (d0 1))
    (rndRange (lsX 11) (lsX 12) (d0 2)) (rndRange (lsX 13) (lsX 14) (d0 3)) x = 0
  rw [show rndRange (lsX 9) (lsX 10) (d0 1) = 0 from rnd000,
    show rndRange (lsX 11) (lsX 12) (d0 2) = 0 from rnd000,
    show rndRange (lsX 13) (lsX 14) (d0 3) = 0 from rnd000,
    show d0 5 = (0 : ℝ) from rfl]
  exact zval_zero x

theorem lsX_floor1 : (⌊lsX 1⌋).toNat = 1 := by
  rw [show lsX 1 = (1 : ℝ) from rfl, Int.floor_one]
  rfl

theorem lsX_floor2 : (⌊lsX 2⌋).toNat = 2 := by
  rw [show lsX 2 = (2 : ℝ) from rfl, show (⌊(2 : ℝ)⌋ : ℤ) = 2 by norm_num]
  rfl

theorem lsX_floor0 : (⌊lsX 0⌋).toNat = 1 := by
  rw [show lsX 0 = (1 : ℝ) from rfl, Int.floor_one]
  rfl

theorem stX_step1 : stepSt (fun _ => (0 : ℝ)) 5 1
    { x := 0, y := 0, xMin := 0, xMax := 0, yMin := 0, yMax := 0 } =
    { x := 1, y := 5, xMin := 0, xMax := 0, yMin := 0, yMax := 0 } := by
  norm_num [stepSt, x1val, procX, procY]

theorem stX_step2 : stepSt (fun _ => (0 : ℝ)) 5 1
    { x := 1, y := 5, xMin := 0, xMax := 0, yMin := 0, yMax := 0 } =
    { x := 6, y := 4, xMin := 0, xMax := 1, yMin := 0, yMax := 5 } := by
  norm_num [stepSt, x1val, procX, procY]

theorem plX_eval : pointLoop (fun _ => (0 : ℝ)) 5 1 2 0
    { x := 0, y := 0, xMin := 0, xMax := 0, yMin := 0, yMax := 0 }
    [123, 123, 123, 123] =
    some ({ x := 6, y := 4, xMin := 0, xMax := 1, yMin := 0, yMax := 5 },
      [1, 5, 6, 4]) := by
  rw [pointLoop_char _ _ _ 2 0 _ _ (by simp)]
  simp only [iterSt, emit, stX_step1, stX_step2]
  rfl

theorem genX_eval : generatePass lsX d0 poolW =
    some ({ x := 6, y := 4, xMin := 0, xMax := 1, yMin := 0, yMax := 5 },
      [some [1, 5, 6, 4]]) := by
  rw [generatePass_eq, zfX_eval, show rndRange (lsX 7) (lsX 8) (d0 0) = 5 from rnd550,
    show rndRange (lsX 15) (lsX 16) (d0 4) = 1 from rnd110, lsX_floor1, lsX_floor2]
  rw [generateWith, subsetLoop]
  simp only [seedX_zero, show poolW.get? 0 = some (some [123, 123, 123, 123]) from rfl]
  rw [show ({ x := 0, y := 0, xMin := 0, xMax := 0, yMin := 0, yMax := 0 : GenSt } : GenSt)
      = { x := 0, y := 0, xMin := 0, xMax := 0, yMin := 0, yMax := 0 } from rfl]
  simp only [plX_eval]
  rfl

theorem npA_eval : normPoint psX 1 5 = (1, 1) := by
  norm_num [normPoint, psX, show lsX 3 = (1 : ℝ) from rfl,
    show lsX 5 = (0 : ℝ) from rfl]

theorem npB_eval : normPoint psX 6 4 = (11, 3/5) := by
  norm_num [normPoint, psX, show lsX 3 = (1 : ℝ) from rfl,
    show lsX 5 = (0 : ℝ) from rfl]

theorem nstep0_eval : normStep psX 0 [1, 5, 6, 4] = some [1, 1, 6, 4] := by
  rw [normStep]
  simp only [show tget ([1, 5, 6, 4] : Buf) (0 * 2) = some 1 from rfl,
    show tget ([1, 5, 6, 4] : Buf) (0 * 2 + 1) = some 5 from rfl, npA_eval]
  rfl

theorem nstep1_eval : normStep psX 1 [1, 1, 6, 4] = some [1, 1, 11, 3/5] := by
  rw [normStep]
  simp only [show tget ([1, 1, 6, 4] : Buf) (1 * 2) = some 6 from rfl,
    show tget ([1, 1, 6, 4] : Buf) (1 * 2 + 1) = some 4 from rfl, npB_eval]
  rfl

theorem normX_eval : normalizePass lsX
    { x := 6, y := 4, xMin := 0, xMax := 1, yMin := 0, yMax := 5 }
    [some [1, 5, 6, 4]] = some [some [1, 1, 11, 3/5]] := by
  rw [normalizePass_eq, lsX_floor1, lsX_floor2]
  show normSubsets psX 2 1 0 [some [1, 5, 6, 4]] = some [some [1, 1, 11, 3/5]]
  rw [normSubsets]
  simp only [show ([some [1, 5, 6, 4]] : Pool).get? 0 = some (some [1, 5, 6, 4]) from rfl]
  rw [normLoop, nstep0_eval]
  simp only []
  rw [normLoop, nstep1_eval]
  rfl

theorem FGX_eval : FractalGeometry 0 lsX d0 poolW = some [some [1, 1, 11, 3/5]] := by
  rw [FractalGeometry_eq, genX_eval]
  exact normX_eval

/-! Section: Evaluation of the trapping first build on `lsX` -/

theorem pointStep_trap (zf : ℝ → ℝ) (al el : ℝ) (i : ℕ) (st : GenSt) (b : Buf)
    (h : b.length ≤ i * 2 + 1) : pointStep zf al el i st b = none := by
  rw [pointStep]
  simp only [tset, if_neg (show ¬ i * 2 + 1 < b.length by omega)]

theorem allocX_eval : alloc lsX = [some [123, 123]] := by
  rw [alloc, lsX_floor0, lsX_floor1]
  rfl

theorem plX_trap : pointLoop (fun _ => (0 : ℝ)) 5 1 2 0
    { x := 0, y := 0, xMin := 0, xMax := 0, yMin := 0, yMax := 0 }
    [123, 123] = none := by
  rw [pointLoop, pointStep_eq (fun _ => (0 : ℝ)) 5 1 0 _ [123, 123] (by simp)]
  simp only [pointLoop]
  rw [pointStep_trap (fun _ => (0 : ℝ)) 5 1 (0 + 1) _ _
    (by rw [pasteAt_length]; simp)]

theorem genX_trap : generatePass lsX d0 [some [123, 123]] = none := by
  rw [generatePass_eq, zfX_eval, show rndRange (lsX 7) (lsX 8) (d0 0) = 5 from rnd550,
    show rndRange (lsX 15) (lsX 16) (d0 4) = 1 from rnd110, lsX_floor1, lsX_floor2]
  rw [generateWith, subsetLoop]
  simp only [seedX_zero,
    show ([some [123, 123]] : Pool).get? 0 = some (some [123, 123]) from rfl]
  rw [plX_trap]

theorem buildX_trap : build 0 lsX d0 none = none := by
  show FractalGeometry 0 lsX d0 (alloc lsX) = none
  rw [allocX_eval, FractalGeometry_eq, genX_trap]

/-! Section: Evaluation of the resize scenario (`lsA` then `lsB`) -/

theorem lsA_floor0 : (⌊lsA 0⌋).toNat = 1 := by
  rw [show lsA 0 = (1 : ℝ) from rfl, Int.floor_one]
  rfl

theorem lsA_floor1 : (⌊lsA 1⌋).toNat = 0 := by
  rw [show lsA 1 = (0 : ℝ) from rfl, Int.floor_zero]
  rfl

theorem lsB_floor1 : (⌊lsB 1⌋).toNat = 0 := by
  rw [show lsB 1 = (0 : ℝ) from rfl, Int.floor_zero]
  rfl

theorem lsB_floor2 : (⌊lsB 2⌋).toNat = 7 := by
  rw [show lsB 2 = (7 : ℝ) from rfl, show (⌊(7 : ℝ)⌋ : ℤ) = 7 by norm_num]
  rfl

theorem allocA_eval : alloc lsA = [some []] := by
  rw [alloc, lsA_floor0, lsA_floor1]
  rfl

theorem FGA_eval (lid : ℤ) (pool : Pool) :
    FractalGeometry lid lsA d0 pool = some pool := by
  rw [FractalGeometry_eq, generatePass_eq, lsA_floor1]
  show normalizePass lsA _ pool = some pool
  rw [normalizePass_eq, lsA_floor1]
  rfl

theorem FGB_eval (lid : ℤ) (pool : Pool) :
    FractalGeometry lid lsB d0 pool = some pool := by
  rw [FractalGeometry_eq, generatePass_eq, lsB_floor1]
  show normalizePass lsB _ pool = some pool
  rw [normalizePass_eq, lsB_floor1]
  rfl

theorem buildA_eval : build 0 lsA d0 none = some [some []] := by
  show FractalGeometry 0 lsA d0 (alloc lsA) = some [some []]
  rw [allocA_eval]
  exact FGA_eval 0 [some []]

theorem buildB_eval : build 0 lsB d0 (some [some []]) = some [some []] := by
  show FractalGeometry 0 lsB d0 [some []] = some [some []]
  exact FGB_eval 0 [some []]

theorem seqAB_eval : buildSeq none [(lsA, d0), (lsB, d0)] =
    some (some [some []]) := by
  rw [buildSeq, buildA_eval]
  simp only []
  rw [buildSeq, buildB_eval]
  rfl

/-! Section: Evaluation of the zero-points trap (`ls8x`) -/

theorem ls8x_floor0 : (⌊ls8x 0⌋).toNat = 0 := by
  rw [show ls8x 0 = (0 : ℝ) from rfl, Int.floor_zero]
  rfl

theorem ls8x_floor1 : (⌊ls8x 1⌋).toNat = 1 := by
  rw [show ls8x 1 = (1 : ℝ) from rfl, Int.floor_one]
  rfl

theorem alloc8_eval : alloc ls8x = [] := by
  rw [alloc, ls8x_floor0]
  rfl

theorem gen8_trap : generatePass ls8x d0 [] = none := by
  rw [generatePass_eq, ls8x_floor1]
  rw [generateWith, subsetLoop]
  simp only [show ([] : Pool).get? 0 = none from rfl]

theorem build8_trap : build 0 ls8x d0 none = none := by
  show FractalGeometry 0 ls8x d0 (alloc ls8x) = none
  rw [alloc8_eval, FractalGeometry_eq, gen8_trap]

/-! Section: Zero-size runs leave the pool untouched -/

theorem list_set_self {α : Type} {p : List α} {s : ℕ} {v : α}
    (h : p.get? s = some v) : p.set s v = p := by
  apply List.ext_getElem?
  intro n
  by_cases hn : s = n
  · subst hn
    rw [← List.get?_eq_getElem? (p.set s v) s, ← List.get?_eq_getElem? p s,
      get?_set_self' _ _ _ (get?_some_lt h), h]
  · rw [List.getElem?_set_ne hn]

theorem subsetLoop_np0 (zf : ℝ → ℝ) (al el : ℝ) (d : ℕ → ℝ) :
    ∀ k s di st pool,
      (∀ t, s ≤ t → t < s + k → ∃ b, pool.get? t = some (some b)) →
      ∃ stF, subsetLoop zf al el d 0 k s di st pool = some (stF, pool) := by
  intro k
  induction k with
  | zero => intro s di st pool _; exact ⟨st, rfl⟩
  | succ k ih =>
    intro s di st pool h
    obtain ⟨b, hb⟩ := h s (le_refl s) (by omega)
    obtain ⟨stF, hrec⟩ := ih (s + 1) (di + 2)
      { st with x := seedX s (d di), y := seedX s (d (di + 1)) } pool
      (fun t ht1 ht2 => h t (by omega) (by omega))
    refine ⟨stF, ?_⟩
    rw [subsetLoop]
    simp only [hb]
    show subsetLoop zf al el d 0 k (s + 1) (di + 2) _ (pool.set s (some b)) =
      some (stF, pool)
    rw [list_set_self hb]
    exact hrec

theorem normSubsets_np0 (ps : NormPs) :
    ∀ k s pool,
      (∀ t, s ≤ t → t < s + k → ∃ b, pool.get? t = some (some b)) →
      normSubsets ps 0 k s pool = some pool := by
  intro k
  induction k with
  | zero => intro s pool _; rfl
  | succ k ih =>
    intro s pool h
    obtain ⟨b, hb⟩ := h s (le_refl s) (by omega)
    rw [normSubsets]
    simp only [hb]
    show (match normLoop ps 0 0 b with
      | none => none
      | some b1 => normSubsets ps 0 k (s + 1) (pool.set s (some b1))) = some pool
    show normSubsets ps 0 k (s + 1) (pool.set s (some b)) = some pool
    rw [list_set_self hb]
    exact ih (s + 1) pool (fun t ht1 ht2 => h t (by omega) (by omega))

/-! Section: Composed pass specifications -/

theorem generatePass_spec (ls d : ℕ → ℝ) (pool : Pool)
    (hfit : poolFits (⌊ls 1⌋).toNat (⌊ls 2⌋).toNat pool) :
    ∃ st p1, generatePass ls d pool = some (st, p1) ∧
      st.xMin ≤ 0 ∧ 0 ≤ st.xMax ∧ st.yMin ≤ 0 ∧ 0 ≤ st.yMax ∧
      st.xMin ≤ st.xMax ∧ st.yMin ≤ st.yMax ∧
      p1.length = pool.length ∧
      (∀ t, (⌊ls 1⌋).toNat ≤ t → p1.get? t = pool.get? t) ∧
      (∀ t, t < (⌊ls 1⌋).toNat → ∃ b0 b, pool.get? t = some (some b0) ∧
        p1.get? t = some (some b) ∧ b.length = b0.length ∧
        (∀ j, (⌊ls 2⌋).toNat * 2 ≤ j → b[j]? = b0[j]?) ∧
        (∀ i, i + 1 < (⌊ls 2⌋).toNat → ∃ rx ry, b[i * 2]? = some rx ∧
          b[i * 2 + 1]? = some ry ∧
          st.xMin ≤ rx ∧ rx ≤ st.xMax ∧ st.yMin ≤ ry ∧ ry ≤ st.yMax)) := by
  rw [generatePass_eq]
  exact generateWith_spec _ _ _ d (⌊ls 2⌋).toNat (⌊ls 1⌋).toNat pool hfit

theorem normalizePass_spec (ls : ℕ → ℝ) (st : GenSt) (pool : Pool)
    (hcov : ∀ t, t < (⌊ls 1⌋).toNat → ∃ b, pool.get? t = some (some b) ∧
      (⌊ls 2⌋).toNat * 2 ≤ b.length) :
    ∃ q, normalizePass ls st pool = some q ∧ q.length = pool.length ∧
      (∀ t, (⌊ls 1⌋).toNat ≤ t → q.get? t = pool.get? t) ∧
      (∀ t, t < (⌊ls 1⌋).toNat → ∃ b0 b, pool.get? t = some (some b0) ∧
        q.get? t = some (some b) ∧ b.length = b0.length ∧
        (∀ j, (⌊ls 2⌋).toNat * 2 ≤ j → b[j]? = b0[j]?) ∧
        (∀ i, i < (⌊ls 2⌋).toNat → ∃ rx ry, b0[i * 2]? = some rx ∧
          b0[i * 2 + 1]? = some ry ∧
          b[i * 2]? = some ((normPoint
            { scaleX := 2 * ls 3 / (st.xMax - st.xMin)
              scaleY := 2 * ls 3 / (st.yMax - st.yMin)
              xMin := st.xMin, yMin := st.yMin, sF := ls 3
              iR := ls 5 / 100, oR := ls 6 / 100 } rx ry).1) ∧
          b[i * 2 + 1]? = some ((normPoint
            { scaleX := 2 * ls 3 / (st.xMax - st.xMin)
              scaleY := 2 * ls 3 / (st.yMax - st.yMin)
              xMin := st.xMin, yMin := st.yMin, sF := ls 3
              iR := ls 5 / 100, oR := ls 6 / 100 } rx ry).2))) := by
  rw [normalizePass_eq]
  obtain ⟨q, h1, h2, h3, h4⟩ := normSubsets_spec _ (⌊ls 2⌋).toNat (⌊ls 1⌋).toNat 0 pool
    (fun t _ ht2 => hcov t (by omega))
  refine ⟨q, h1, h2, fun t ht => h3 t (by omega), fun t ht => ?_⟩
  obtain ⟨b0, b, g1, g2, g3, g4, g5⟩ := h4 t (by omega) (by omega)
  exact ⟨b0, b, g1, g2, g3, g4, g5⟩

theorem myBuild_some_eq (lid : ℤ) (ls d : ℕ → ℝ) (pool : Pool) :
    myBuild lid ls d (some pool) = FractalGeometry lid ls d pool := rfl

theorem myBuild_none_eq (lid : ℤ) (ls d : ℕ → ℝ) :
    myBuild lid ls d none = FractalGeometry lid ls d (alloc ls) := rfl

/-- End-to-end shape specification of a successful `FractalGeometry` call. -/
theorem FG_spec (lid : ℤ) (ls d : ℕ → ℝ) (pool : Pool)
    (hfit : poolFits (⌊ls 1⌋).toNat (⌊ls 2⌋).toNat pool) :
    ∃ q, FractalGeometry lid ls d pool = some q ∧ q.length = pool.length ∧
      (∀ t, (⌊ls 1⌋).toNat ≤ t → q.get? t = pool.get? t) ∧
      (∀ t, t < (⌊ls 1⌋).toNat → ∃ b0 b, pool.get? t = some (some b0) ∧
        q.get? t = some (some b) ∧ b.length = b0.length ∧
        (∀ j, (⌊ls 2⌋).toNat * 2 ≤ j → b[j]? = b0[j]?)) := by
  obtain ⟨st, p1, hgen, _, _, _, _, _, _, hp1len, hp1out, hp1in⟩ :=
    generatePass_spec ls d pool hfit
  have hfit1 : poolFits (⌊ls 1⌋).toNat (⌊ls 2⌋).toNat p1 :=
    poolFits_of_gen _ _ (fun t ht =>
      (hp1in t ht).imp (fun b0 h => h.imp (fun b h => ⟨h.1, h.2.1, h.2.2.1⟩))) hfit
  obtain ⟨q, hnorm, hqlen, hqout, hqin⟩ := normalizePass_spec ls st p1 hfit1
  refine ⟨q, ?_, by rw [hqlen, hp1len], ?_, ?_⟩
  · rw [FractalGeometry_eq, hgen]
    exact hnorm
  · intro t ht
    rw [hqout t ht, hp1out t ht]
  · intro t ht
    obtain ⟨c0, c1, g1, g2, g3, g4, _⟩ := hqin t ht
    obtain ⟨b0, b, f1, f2, f3, f4, _⟩ := hp1in t ht
    rw [f2] at g1
    cases g1
    refine ⟨b0, c1, f1, g2, by rw [g3, f3], ?_⟩
    intro j hj
    rw [g4 j hj, f4 j hj]

/-! Section: Warp-free normalization and the scaling bound -/

theorem normPoint_no_warp (ps : NormPs) (rx ry : ℝ) (h : ¬ warpFires ps rx ry) :
    normPoint ps rx ry =
      (ps.scaleX * (rx - ps.xMin) - ps.sF, ps.scaleY * (ry - ps.yMin) - ps.sF) := by
  rw [warpFires] at h
  simp only [normPoint]
  split_ifs with h1 h2
  · exact absurd ⟨h1, h2⟩ h
  · rfl
  · rfl

theorem scale_bound (sF lo hi v : ℝ) (hsF : 0 ≤ sF) (hlt : lo < hi)
    (h1 : lo ≤ v) (h2 : v ≤ hi) : |2 * sF / (hi - lo) * (v - lo) - sF| ≤ sF := by
  have hd : (0 : ℝ) < hi - lo := by linarith
  have e : 2 * sF / (hi - lo) * (v - lo) = 2 * sF * ((v - lo) / (hi - lo)) := by
    ring
  rw [e, abs_le]
  have hr0 : 0 ≤ (v - lo) / (hi - lo) := div_nonneg (by linarith) (le_of_lt hd)
  have hr1 : (v - lo) / (hi - lo) ≤ 1 := (div_le_one hd).mpr (by linarith)
  constructor <;> nlinarith

/-! Section: Claim theorems -/

/-- C1: the claim says the first build allocates `subsetCount` buffers
(configuration field 1) of length `2 * pointsPerSubset` (field 2), filled
with a non-zero sentinel.  On `lsX` (field 0 = 1, subsetCount = 1,
pointsPerSubset = 2) `myBuild` instead allocates `⌊field 0⌋` buffers of
length `2 * ⌊field 1⌋` — here one buffer of length 2 instead of length 4 —
so the very same call's generator, which writes `2 * ⌊field 2⌋ = 4` slots,
traps.  The sentinel part (fill value 123 ≠ 0) is the only part that holds. -/
theorem c1_pool_allocation_uses_wrong_slots :
    (⌊lsX 1⌋).toNat = 1 ∧ (⌊lsX 2⌋).toNat = 2 ∧
    alloc lsX = [some [123, 123]] ∧ (123 : ℝ) ≠ 0 ∧
    build 0 lsX d0 none = none :=
  ⟨lsX_floor1, lsX_floor2, allocX_eval, by norm_num, buildX_trap⟩

/-- C2: the claim says a build call after a size change destroys and
rebuilds the pool to the new sizes.  `myBuild` only checks
`lastData == null`, so after a first call with `lsA` (pool: one buffer of
length 0) a second call with `lsB` — identical except pointsPerSubset
(field 2) changed from 5 to 7 — returns the untouched one-buffer pool,
not a rebuilt pool with `⌊lsB 1⌋ = 0` buffers of length `2 * 7 = 14`. -/
theorem c2_no_rebuild_on_resize :
    lsA 0 = lsB 0 ∧ lsA 1 = lsB 1 ∧ lsA 2 = 5 ∧ lsB 2 = 7 ∧
    buildSeq none [(lsA, d0), (lsB, d0)] = some (some [some []]) ∧
    (⌊lsB 1⌋).toNat = 0 ∧ ([some ([] : Buf)] : Pool).length = 1 :=
  ⟨rfl, rfl, rfl, rfl, seqAB_eval, lsB_floor1, rfl⟩

/-- C3: the claim says the per-subset seed is `(s/100) * (0.5 - u)` with
`s/100` the real-valued quotient, a distinct non-zero offset for `s ≥ 1`.
In the source `s` is an `i32`, so `s / 100` is integer division: for every
subset index `s ≤ 99` the seed is exactly 0 (all such subsets start at the
origin), while the spec's real-quotient seed (`seedSpec`) is non-zero at
`s = 1`, `u = 0`. -/
theorem c3_seed_is_integer_division :
    (∀ s u, s ≤ 99 → seedX s u = 0) ∧ seedX 1 0 = 0 ∧ seedSpec 1 0 ≠ 0 := by
  refine ⟨?_, ?_, ?_⟩
  · intro s u hs
    rw [seedX, Nat.div_eq_of_lt (by omega)]
    simp
  · rw [seedX]
    norm_num
  · rw [seedSpec]
    norm_num

/-- C3 witness: the universally quantified part of
`c3_seed_is_integer_division` applied at subset 1 with draw 37/100. -/
theorem c3_seed_is_integer_division_witness :
    1 ≤ 99 ∧ seedX 1 (37/100) = 0 :=
  ⟨by norm_num, c3_seed_is_integer_division.1 1 (37/100) (by norm_num)⟩

/-- C6 counterexample: for the inverted range min = 1 > max = 0 and draw
u = 1/2 ∈ [0,1), the drawn coefficient is `1 + (1/2) * (0 - 1) = 1/2`,
which is not `min` — refuting the claim's "yielding coefficient == min". -/
theorem c6_counterexample_draw_not_min :
    (0 : ℝ) < 1 ∧ (0 : ℝ) ≤ 1/2 ∧ (1/2 : ℝ) < 1 ∧
    rndRange 1 0 (1/2) = 1/2 ∧ (1/2 : ℝ) ≠ 1 := by
  norm_num [rndRange]

/-- C6 (amended): for an inverted range `max < min` and a draw `u ∈ [0,1)`
the coefficient draw still proceeds (it is total) and yields
`min + u * (max - min)`, which lies in the half-open interval `(max, min]` —
it equals `min` only for `u = 0`, not for every draw. -/
theorem c6_degenerate_range_draw (mn mx u : ℝ) (hr : mx < mn) (h0 : 0 ≤ u)
    (h1 : u < 1) : mx < rndRange mn mx u ∧ rndRange mn mx u ≤ mn := by
  rw [rndRange]
  constructor <;> nlinarith

/-- C6 witness: `c6_degenerate_range_draw` applied at min = 1, max = 0,
u = 1/2. -/
theorem c6_degenerate_range_draw_witness :
    (0 : ℝ) < 1 ∧ (0 : ℝ) ≤ 1/2 ∧ (1/2 : ℝ) < 1 ∧
    (0 < rndRange 1 0 (1/2) ∧ rndRange 1 0 (1/2) ≤ 1) :=
  ⟨by norm_num, by norm_num, by norm_num,
    c6_degenerate_range_draw 1 0 (1/2) (by norm_num) (by norm_num) (by norm_num)⟩

/-- Helper: the four-slot pool `poolW` satisfies the shape precondition for
`lsX` (1 subset, 2 points). -/
theorem poolW_fits : poolFits (⌊lsX 1⌋).toNat (⌊lsX 2⌋).toNat poolW := by
  intro s hs
  rw [lsX_floor1] at hs
  have hs0 : s = 0 := by omega
  subst hs0
  exact ⟨[123, 123, 123, 123], rfl, by rw [lsX_floor2]; simp⟩

/-- C5: within one invocation the branch of the iteration formula is fixed
by the single `choice` value drawn at stream index 5: the kernel equals its
variant whose branch is forced to `branchIndex choice` everywhere; the
three branches are the claimed formulas on the claimed `choice` ranges; and
the kernel reads the draw stream only at indices below
`6 + numSubsets * 2` — so `choice` is never re-drawn per subset or per
point. -/
theorem c5_single_choice_selects_branch :
    (∀ lid ls d pool, FractalGeometry lid ls d pool =
       FractalGeometryBranch lid (branchIndex (d 5)) ls d pool) ∧
    (∀ c bl cl dl x,
       (c < 1/2 → zval c bl cl dl x = dl + Real.sqrt |bl * x - cl|) ∧
       (¬ c < 1/2 → c < 3/4 →
         zval c bl cl dl x = dl + Real.sqrt (Real.sqrt |bl * x - cl|)) ∧
       (¬ c < 1/2 → ¬ c < 3/4 →
         zval c bl cl dl x = dl + Real.log (2 + Real.sqrt |bl * x - cl|))) ∧
    (∀ lid ls d1 d2 pool, (∀ j, j < 6 + (⌊ls 1⌋).toNat * 2 → d1 j = d2 j) →
       FractalGeometry lid ls d1 pool = FractalGeometry lid ls d2 pool) := by
  refine ⟨FractalGeometry_eq_branch, ?_, FractalGeometry_draws⟩
  intro c bl cl dl x
  refine ⟨?_, ?_, ?_⟩
  · intro h
    rw [zval, if_pos h]
  · intro h1 h2
    rw [zval, if_neg h1, if_pos h2]
  · intro h1 h2
    rw [zval, if_neg h1, if_neg h2]

/-- C5 witness: the draw-consumption part of
`c5_single_choice_selects_branch` applied to `lsX` with the two streams
`d0` and `dAlt`, which agree only on the first 8 draws. -/
theorem c5_single_choice_selects_branch_witness :
    FractalGeometry 0 lsX d0 poolW = FractalGeometry 0 lsX dAlt poolW :=
  c5_single_choice_selects_branch.2.2 0 lsX d0 dAlt poolW (by
    intro j hj
    rw [lsX_floor1] at hj
    simp only [d0, dAlt, if_pos (show j < 8 by omega)])

/-- C9: whenever the pool provides a non-null buffer of length at least
`2 * ⌊config[2]⌋` for every subset index below `⌊config[1]⌋`, both passes
stay in bounds and `FractalGeometry` returns without trapping; and the
pool-allocation code itself does not establish this precondition (on `lsX`
it allocates one buffer of length 2 where length 4 is needed). -/
theorem c9_inbounds_under_precondition :
    (∀ lid ls d pool, poolFits (⌊ls 1⌋).toNat (⌊ls 2⌋).toNat pool →
       (FractalGeometry lid ls d pool).isSome) ∧
    ¬ poolFits (⌊lsX 1⌋).toNat (⌊lsX 2⌋).toNat (alloc lsX) := by
  constructor
  · intro lid ls d pool hfit
    obtain ⟨q, hq, _, _, _⟩ := FG_spec lid ls d pool hfit
    rw [hq]
    rfl
  · intro h
    rw [lsX_floor1, lsX_floor2, allocX_eval] at h
    obtain ⟨b, hb, hlen⟩ := h 0 (by omega)
    have hb2 : ([123, 123] : Buf) = b := by
      have h3 := hb
      simp only [show ([some [123, 123]] : Pool).get? 0
        = some (some [123, 123]) from rfl] at h3
      exact Option.some.inj (Option.some.inj h3)
    rw [← hb2] at hlen
    simp at hlen

/-- C9 witness: `c9_inbounds_under_precondition` applied to `lsX` with the
correctly sized pool `poolW`. -/
theorem c9_inbounds_under_precondition_witness :
    (FractalGeometry 0 lsX d0 poolW).isSome :=
  c9_inbounds_under_precondition.1 0 lsX d0 poolW poolW_fits

/-- C10: the extrema updates only widen their side; the extrema after a
step are a function of the pre-write state only (the step's own written
`x`, `y` never enter that step's extrema); every successful generation pass
started from the all-zero extrema returns `xMin ≤ 0 ≤ xMax` and
`yMin ≤ 0 ≤ yMax`; and on the concrete `lsX` run the final iteration
writes raw `x = 6` while the returned `xMax` stays 1 — the final write of a
subset is never folded into the extrema. -/
theorem c10_extrema_invariants :
    (∀ zf al el st, (stepSt zf al el st).xMin ≤ st.xMin ∧
       st.xMax ≤ (stepSt zf al el st).xMax ∧
       (stepSt zf al el st).yMin ≤ st.yMin ∧
       st.yMax ≤ (stepSt zf al el st).yMax) ∧
    (∀ zf al el st, (stepSt zf al el st).xMin = (procY (procX st)).xMin ∧
       (stepSt zf al el st).xMax = (procY (procX st)).xMax ∧
       (stepSt zf al el st).yMin = (procY (procX st)).yMin ∧
       (stepSt zf al el st).yMax = (procY (procX st)).yMax) ∧
    (∀ ls d pool st p1, poolFits (⌊ls 1⌋).toNat (⌊ls 2⌋).toNat pool →
       generatePass ls d pool = some (st, p1) →
       st.xMin ≤ 0 ∧ 0 ≤ st.xMax ∧ st.yMin ≤ 0 ∧ 0 ≤ st.yMax) ∧
    (generatePass lsX d0 poolW =
       some ({ x := 6, y := 4, xMin := 0, xMax := 1, yMin := 0, yMax := 5 },
         [some [1, 5, 6, 4]]) ∧
     ([1, 5, 6, 4] : Buf)[1 * 2]? = some 6 ∧ (1 : ℝ) < 6) := by
  refine ⟨stepSt_widen, ?_, ?_, genX_eval, by simp, by norm_num⟩
  · intro zf al el st
    exact ⟨rfl, rfl, rfl, rfl⟩
  · intro ls d pool st p1 hfit hgen
    obtain ⟨stc, p1c, hrun, w1, w2, w3, w4, _, _, _, _, _⟩ :=
      generatePass_spec ls d pool hfit
    rw [hrun] at hgen
    injection hgen with hpair
    injection hpair with ha hb
    subst ha
    exact ⟨w1, w2, w3, w4⟩

/-- C10 witness: the run-level part of `c10_extrema_invariants` applied to
the concrete `lsX` run. -/
theorem c10_extrema_invariants_witness :
    ({ x := 6, y := 4, xMin := 0, xMax := 1, yMin := 0, yMax := 5 } : GenSt).xMin ≤ 0 ∧
    (0 : ℝ) ≤ ({ x := 6, y := 4, xMin := 0, xMax := 1, yMin := 0, yMax := 5 } : GenSt).xMax ∧
    ({ x := 6, y := 4, xMin := 0, xMax := 1, yMin := 0, yMax := 5 } : GenSt).yMin ≤ 0 ∧
    (0 : ℝ) ≤ ({ x := 6, y := 4, xMin := 0, xMax := 1, yMin := 0, yMax := 5 } : GenSt).yMax :=
  c10_extrema_invariants.2.2.1 lsX d0 poolW _ _ poolW_fits genX_eval

/-- C8: the claim says any configuration with subsetCount == 0 or
pointsPerSubset == 0 builds without trapping.  With subsetCount
(`⌊config[1]⌋`) zero that holds, and with pointsPerSubset (`⌊config[2]⌋`)
zero it holds whenever the pool covers every subset index — but the pool is
sized from `⌊config[0]⌋`, so on `ls8x` (field 0 = 0, subsetCount = 1,
pointsPerSubset = 0) the first build allocates an empty pool and the
generation loop traps reading `reuse[0]`. -/
theorem c8_zero_counts :
    build 0 ls8x d0 none = none ∧
    (⌊ls8x 1⌋).toNat = 1 ∧ (⌊ls8x 2⌋).toNat = 0 ∧
    (∀ lid ls d pool, ⌊ls 1⌋ ≤ 0 → FractalGeometry lid ls d pool = some pool) ∧
    (∀ lid ls d pool, ⌊ls 2⌋ ≤ 0 →
       (∀ t, t < (⌊ls 1⌋).toNat → ∃ b, pool.get? t = some (some b)) →
       FractalGeometry lid ls d pool = some pool) ∧
    (∀ lid ls d, myBuild lid ls d none = FractalGeometry lid ls d (alloc ls)) ∧
    (∀ lid ls d pool, myBuild lid ls d (some pool) = FractalGeometry lid ls d pool) := by
  refine ⟨build8_trap, ls8x_floor1,
    by rw [show ls8x 2 = (0 : ℝ) from rfl, Int.floor_zero]; rfl,
    ?_, ?_, myBuild_none_eq, myBuild_some_eq⟩
  · intro lid ls d pool h
    have h0 : (⌊ls 1⌋).toNat = 0 := Int.toNat_eq_zero.mpr h
    rw [FractalGeometry_eq, generatePass_eq, h0]
    show normalizePass ls
      { x := 0, y := 0, xMin := 0, xMax := 0, yMin := 0, yMax := 0 } pool = some pool
    rw [normalizePass_eq, h0]
    rfl
  · intro lid ls d pool h hcv
    have h0 : (⌊ls 2⌋).toNat = 0 := Int.toNat_eq_zero.mpr h
    rw [FractalGeometry_eq, generatePass_eq, h0, generateWith]
    obtain ⟨stF, hsl⟩ := subsetLoop_np0
      (fun x => zval (d 5) (rndRange (ls 9) (ls 10) (d 1))
        (rndRange (ls 11) (ls 12) (d 2)) (rndRange (ls 13) (ls 14) (d 3)) x)
      (rndRange (ls 7) (ls 8) (d 0)) (rndRange (ls 15) (ls 16) (d 4)) d
      (⌊ls 1⌋).toNat 0 6
      { x := 0, y := 0, xMin := 0, xMax := 0, yMin := 0, yMax := 0 } pool
      (fun t _ ht2 => hcv t (by omega))
    rw [hsl]
    show normalizePass ls stF pool = some pool
    rw [normalizePass_eq, h0]
    exact normSubsets_np0 _ (⌊ls 1⌋).toNat 0 pool (fun t _ ht2 => hcv t (by omega))

/-- C8 witness: the pointsPerSubset == 0 part of `c8_zero_counts` applied
to `lsB0` (field 0 = 1, subsetCount = 1, pointsPerSubset = 0) with a
one-buffer pool: the call returns the pool untouched. -/
theorem c8_zero_counts_witness :
    FractalGeometry 0 lsB0 d0 [some [123, 123]] = some [some [123, 123]] :=
  c8_zero_counts.2.2.2.2.1 0 lsB0 d0 [some [123, 123]]
    (by rw [show lsB0 2 = (0 : ℝ) from rfl, Int.floor_zero])
    (by
      intro t ht
      rw [show (⌊lsB0 1⌋).toNat = 1 by
        rw [show lsB0 1 = (1 : ℝ) from rfl, Int.floor_one]; rfl] at ht
      have ht0 : t = 0 := by omega
      subst ht0
      exact ⟨[123, 123], rfl⟩)

/-- Helper for C7: under the shape precondition, two pools that agree
outside the overwritten region produce identical kernel results. -/
theorem FG_content_indep (lid : ℤ) (ls d : ℕ → ℝ) (p1 p2 : Pool)
    (hfit : poolFits (⌊ls 1⌋).toNat (⌊ls 2⌋).toNat p1)
    (hag : agreeOutside (⌊ls 1⌋).toNat (⌊ls 2⌋).toNat p1 p2) :
    FractalGeometry lid ls d p1 = FractalGeometry lid ls d p2 := by
  obtain ⟨hlen, hout, hpair⟩ := hag
  rw [FractalGeometry_eq, FractalGeometry_eq, generatePass_eq, generatePass_eq,
    generateWith, generateWith]
  obtain ⟨stF, pF, h1, h2⟩ := subsetLoop_parallel
    (fun x => zval (d 5) (rndRange (ls 9) (ls 10) (d 1))
      (rndRange (ls 11) (ls 12) (d 2)) (rndRange (ls 13) (ls 14) (d 3)) x)
    (rndRange (ls 7) (ls 8) (d 0)) (rndRange (ls 15) (ls 16) (d 4)) d
    (⌊ls 2⌋).toNat (⌊ls 1⌋).toNat 0 6
    { x := 0, y := 0, xMin := 0, xMax := 0, yMin := 0, yMax := 0 } p1 p2
    (fun t _ ht2 => hfit t (by omega)) hlen
    (fun t ht => by
      rcases ht with h | h
      · exact absurd h (by omega)
      · exact hout t (by omega))
    (fun t _ ht2 => hpair t (by omega))
  rw [h1, h2]

/-- C7: the kernel's output depends only on the configuration and the draw
stream, not on the prior contents of the slots it overwrites — two pools of
identical shape agreeing outside the overwritten region give identical
results — and, as a consequence, repeating a build call with the same
configuration and draws returns the bit-identical pool again. -/
theorem c7_determinism_content_independence :
    (∀ lid ls d p1 p2, poolFits (⌊ls 1⌋).toNat (⌊ls 2⌋).toNat p1 →
       agreeOutside (⌊ls 1⌋).toNat (⌊ls 2⌋).toNat p1 p2 →
       FractalGeometry lid ls d p1 = FractalGeometry lid ls d p2) ∧
    (∀ lid ls d p q, poolFits (⌊ls 1⌋).toNat (⌊ls 2⌋).toNat p →
       myBuild lid ls d (some p) = some q →
       myBuild lid ls d (some q) = some q) := by
  refine ⟨FG_content_indep, ?_⟩
  intro lid ls d p q hfit hbuild
  rw [myBuild_some_eq] at hbuild
  obtain ⟨qF, hFG, hqlen, hqout, hqin⟩ := FG_spec lid ls d p hfit
  rw [hFG] at hbuild
  have hq : qF = q := Option.some.inj hbuild
  subst hq
  have hfitq : poolFits (⌊ls 1⌋).toNat (⌊ls 2⌋).toNat qF := by
    intro t ht
    obtain ⟨b0, b, g1, g2, g3, _⟩ := hqin t ht
    obtain ⟨bc, hbc, hbl⟩ := hfit t ht
    rw [g1] at hbc
    cases hbc
    exact ⟨b, g2, by rw [g3]; exact hbl⟩
  have hag : agreeOutside (⌊ls 1⌋).toNat (⌊ls 2⌋).toNat qF p := by
    refine ⟨hqlen, hqout, ?_⟩
    intro t ht
    obtain ⟨b0, b, g1, g2, g3, g4⟩ := hqin t ht
    exact ⟨b, b0, g2, g1, g3, g4⟩
  rw [myBuild_some_eq, FG_content_indep lid ls d qF p hfitq hag]
  exact hFG

/-- C7 witness: `c7_determinism_content_independence` applied to `lsX` with
two pools holding different stale contents in the overwritten region. -/
theorem c7_determinism_content_independence_witness :
    FractalGeometry 0 lsX d0 poolW = FractalGeometry 0 lsX d0 [some [9, 9, 9, 9]] :=
  c7_determinism_content_independence.1 0 lsX d0 poolW [some [9, 9, 9, 9]]
    poolW_fits
    (by
      refine ⟨rfl, ?_, ?_⟩
      · intro t ht
        rw [lsX_floor1] at ht
        rw [List.get?_eq_none.mpr (by simp [poolW]; omega),
          List.get?_eq_none.mpr (by simp; omega)]
      · intro t ht
        rw [lsX_floor1] at ht
        have ht0 : t = 0 := by omega
        subst ht0
        refine ⟨[123, 123, 123, 123], [9, 9, 9, 9], rfl, rfl, rfl, ?_⟩
        intro j hj
        rw [lsX_floor2] at hj
        rw [List.getElem?_eq_none (by simp; omega),
          List.getElem?_eq_none (by simp; omega)])

/-- C4 counterexample: on `lsX` (scaleFactor = 1, warp disabled since
field 5 = 0, non-degenerate extrema 0 ≠ 1 and 0 ≠ 5) the returned buffer
contains the coordinate 11 at offset 2 — the final point of the subset —
which exceeds `scaleFactor + 9`, so it is not within
`[-scaleFactor - eps, scaleFactor + eps]` for any small `eps`, and it is
not a warp-modified point. -/
theorem c4_counterexample_final_point_escapes :
    FractalGeometry 0 lsX d0 poolW = some [some [1, 1, 11, 3/5]] ∧
    ([1, 1, 11, 3/5] : Buf)[1 * 2]? = some 11 ∧
    lsX 3 = 1 ∧ lsX 5 = 0 ∧ lsX 3 + 9 < 11 :=
  ⟨FGX_eval, by simp, rfl, rfl,
    by rw [show lsX 3 = (1 : ℝ) from rfl]; norm_num⟩

/-- C4 (amended): for every configuration with a fitting pool, nonnegative
scaleFactor and non-degenerate generated extrema, every coordinate written
for a point other than its subset's final one (`i + 1 < pointsPerSubset`),
and not modified by the inner-radius warp, lies exactly in
`[-scaleFactor, scaleFactor]` in the real-valued model; the final point of
each subset is exempt because its raw value never enters the extrema. -/
theorem c4_normalized_coordinates_bounded
    (lid : ℤ) (ls d : ℕ → ℝ) (pool : Pool) (st : GenSt) (p1 p2 : Pool)
    (hfit : poolFits (⌊ls 1⌋).toNat (⌊ls 2⌋).toNat pool)
    (hgen : generatePass ls d pool = some (st, p1))
    (hnorm : normalizePass ls st p1 = some p2)
    (hsF : 0 ≤ ls 3) (hndx : st.xMin ≠ st.xMax) (hndy : st.yMin ≠ st.yMax) :
    FractalGeometry lid ls d pool = some p2 ∧
    ∀ s i b1 b2 rx ry,
      s < (⌊ls 1⌋).toNat → i + 1 < (⌊ls 2⌋).toNat →
      p1.get? s = some (some b1) → p2.get? s = some (some b2) →
      b1[i * 2]? = some rx → b1[i * 2 + 1]? = some ry →
      ¬ warpFires
          { scaleX := 2 * ls 3 / (st.xMax - st.xMin)
            scaleY := 2 * ls 3 / (st.yMax - st.yMin)
            xMin := st.xMin, yMin := st.yMin, sF := ls 3
            iR := ls 5 / 100, oR := ls 6 / 100 } rx ry →
      b2[i * 2]? = some (2 * ls 3 / (st.xMax - st.xMin) * (rx - st.xMin) - ls 3) ∧
      b2[i * 2 + 1]? = some (2 * ls 3 / (st.yMax - st.yMin) * (ry - st.yMin) - ls 3) ∧
      |2 * ls 3 / (st.xMax - st.xMin) * (rx - st.xMin) - ls 3| ≤ ls 3 ∧
      |2 * ls 3 / (st.yMax - st.yMin) * (ry - st.yMin) - ls 3| ≤ ls 3 := by
  obtain ⟨stc, p1c, hrun, z1, z2, z3, z4, ho1, ho2, hp1len, hp1out, hp1in⟩ :=
    generatePass_spec ls d pool hfit
  rw [hrun] at hgen
  injection hgen with hgen1
  injection hgen1 with hga hgb
  subst hga
  subst hgb
  have hfit1 : poolFits (⌊ls 1⌋).toNat (⌊ls 2⌋).toNat p1c :=
    poolFits_of_gen _ _ (fun t ht =>
      (hp1in t ht).imp (fun b0 h => h.imp (fun b h => ⟨h.1, h.2.1, h.2.2.1⟩))) hfit
  obtain ⟨q, hq, hqlen, hqout, hqin⟩ := normalizePass_spec ls stc p1c hfit1
  rw [hq] at hnorm
  have hq2 : q = p2 := Option.some.inj hnorm
  subst hq2
  constructor
  · rw [FractalGeometry_eq, hrun]
    exact hq
  · intro s i b1 b2 rx ry hs hi hb1 hb2 hrx hry hw
    obtain ⟨c0, c1, g1, g2, g3, g4, g5⟩ := hqin s hs
    rw [hb1] at g1
    have hc0 : some b1 = some c0 := Option.some.inj g1
    have hc0b : b1 = c0 := Option.some.inj hc0
    subst hc0b
    rw [hb2] at g2
    have hc1 : some c1 = some b2 := Option.some.inj g2.symm
    have hc1b : c1 = b2 := Option.some.inj hc1
    subst hc1b
    obtain ⟨rx2, ry2, e1, e2, e3, e4⟩ := g5 i (by omega)
    rw [hrx] at e1
    have hrx2 : rx = rx2 := Option.some.inj e1
    subst hrx2
    rw [hry] at e2
    have hry2 : ry = ry2 := Option.some.inj e2
    subst hry2
    obtain ⟨f0, fb, f1, f2, f3, f4, f5⟩ := hp1in s hs
    rw [hb1] at f2
    have hfb : fb = b1 := Option.some.inj (Option.some.inj f2.symm)
    subst hfb
    obtain ⟨rx3, ry3, k1, k2, k3, k4, k5, k6⟩ := f5 i hi
    rw [hrx] at k1
    have hrx3 : rx = rx3 := Option.some.inj k1
    subst hrx3
    rw [hry] at k2
    have hry3 : ry = ry3 := Option.some.inj k2
    subst hry3
    rw [normPoint_no_warp _ _ _ hw] at e3 e4
    have hxlt : stc.xMin < stc.xMax := lt_of_le_of_ne ho1 hndx
    have hylt : stc.yMin < stc.yMax := lt_of_le_of_ne ho2 hndy
    exact ⟨e3, e4, scale_bound (ls 3) stc.xMin stc.xMax rx hsF hxlt k3 k4,
      scale_bound (ls 3) stc.yMin stc.yMax ry hsF hylt k5 k6⟩

/-- C4 witness: `c4_normalized_coordinates_bounded` applied to the concrete
`lsX` run at the non-final point `i = 0` of subset 0, whose raw pair is
`(1, 5)` and whose scaled pair is `(1, 1)`, within `[-1, 1]`. -/
theorem c4_normalized_coordinates_bounded_witness :
    ([1, 1, 11, 3/5] : Buf)[0 * 2]? =
      some (2 * lsX 3 / (1 - 0) * ((1 : ℝ) - 0) - lsX 3) ∧
    ([1, 1, 11, 3/5] : Buf)[0 * 2 + 1]? =
      some (2 * lsX 3 / (5 - 0) * ((5 : ℝ) - 0) - lsX 3) ∧
    |2 * lsX 3 / (1 - 0) * ((1 : ℝ) - 0) - lsX 3| ≤ lsX 3 ∧
    |2 * lsX 3 / (5 - 0) * ((5 : ℝ) - 0) - lsX 3| ≤ lsX 3 :=
  (c4_normalized_coordinates_bounded 0 lsX d0 poolW
    { x := 6, y := 4, xMin := 0, xMax := 1, yMin := 0, yMax := 5 }
    [some [1, 5, 6, 4]] [some [1, 1, 11, 3/5]]
    poolW_fits genX_eval normX_eval
    (by rw [show lsX 3 = (1 : ℝ) from rfl]; norm_num)
    (by norm_num) (by norm_num)).2
    0 0 [1, 5, 6, 4] [1, 1, 11, 3/5] 1 5
    (by rw [lsX_floor1]; omega) (by rw [lsX_floor2]; omega)
    rfl rfl (by simp) (by simp)
    (by
      intro hcontra
      have hiR : ¬ (0 : ℝ) < lsX 5 / 100 := by
        rw [show lsX 5 = (0 : ℝ) from rfl]
        norm_num
      exact hiR hcontra.1)
